import Mathlib

/-!
Verification of the poly trading system's core decision logic.

This file shallowly embeds the repository's pure decision engine
(`src/src/strategy.py`, `src/src/config.py`), the position/portfolio
ledger and backtest replay engine (`src/src/backtest/engine.py`), the
legacy standalone backtest engine (`src/backtest_engine.py`), the risk
manager (`src/src/live/risk.py`) and the live order executor's entry
path (`src/src/live/executor.py`).

Modelling conventions:
- Python floats carrying prices and money are modelled as `ℚ` (the spec
  states all monetary arithmetic is exact for the domain).
- `datetime` timestamps are modelled as `ℚ` measured in hours, so the
  Python `(a - b).total_seconds() / 3600` becomes `a - b`.
- Python object identity of `Position` objects (needed because the
  ledger mutates a position in place and `list.remove` works on the
  object held by both the open list and local variables) is modelled by
  a `pid : ℕ` field, assigned from a fresh counter at open time.
- Python strings are modelled as `String`; lowercasing and substring
  tests are made explicit on `List Char`.
-/

/-- Strategy constants from `src/src/config.py` (identical values in the
legacy `src/config.py`). -/
def TAKE_PROFIT_PRICE : ℚ := 99/100

def STOP_LOSS_REBOUND_MARGIN : ℚ := 1/100

def TAKER_FEE_PCT : ℚ := 5/1000

def MAKER_FEE_PCT : ℚ := 0

def SLIPPAGE_TICKS : ℚ := 1/1000

def STOP_LOSS_SLIPPAGE : ℚ := 1/100

def MAX_SAME_CATEGORY : ℕ := 5

def MAX_CONCURRENT_POSITIONS : ℕ := 50

def CIRCUIT_BREAKER_MAX_LOSS_USD : ℚ := 500

def CIRCUIT_BREAKER_MAX_LOSS_PCT : ℚ := 1/10

def CIRCUIT_BREAKER_MAX_CONSECUTIVE_LOSSES : ℕ := 10

/-- `TierConfig` dataclass from `src/src/config.py`. -/
structure TierConfig where
  name : String
  price_low : ℚ
  price_high : ℚ
  max_hours_to_resolution : ℚ
  position_size_usd : ℚ
  soft_stop_loss : ℚ
  hard_stop_loss : ℚ
deriving DecidableEq

/-- `TIER_A` from `src/src/config.py`. -/
def TIER_A : TierConfig :=
  { name := "TierA"
    price_low := 940/1000
    price_high := 990/1000
    max_hours_to_resolution := 12
    position_size_usd := 50
    soft_stop_loss := 88/100
    hard_stop_loss := 85/100 }

/-- `TIERS` from `src/src/config.py`. -/
def TIERS : List TierConfig := [TIER_A]

/-- `SUPER_CATEGORIES` from `src/src/config.py`, as an ordered
association list (Python dicts preserve insertion order). -/
def SUPER_CATEGORIES : List (String × List String) :=
  [ ("sports", ["sports", "nba", "nfl", "mlb", "nhl", "soccer", "football",
      "tennis", "mma", "ufc", "cricket", "f1", "racing", "boxing",
      "baseball", "basketball", "hockey", "golf", "olympics",
      "game", "match", "beat", "win", "score", "points"]),
    ("politics", ["politics", "election", "congress", "senate", "president",
      "governor", "legislation", "government", "vote", "ballot",
      "trump", "biden", "republican", "democrat", "party"]),
    ("crypto", ["crypto", "bitcoin", "ethereum", "solana", "defi", "token",
      "blockchain", "nft", "btc", "eth", "xrp", "price of"]),
    ("entertainment", ["entertainment", "movie", "tv", "music", "celebrity", "award"]),
    ("economy", ["economy", "fed", "inflation", "gdp", "interest rate",
      "unemployment", "cpi", "stock market", "recession"]) ]

/-- Python `str.lower()` over the ASCII domain of the configured
keywords, producing the character list we do substring tests on. -/
def lowerChars (s : String) : List Char := s.toList.map Char.toLower

/-- Python substring containment `needle in haystack` on char lists. -/
def containsSub (needle haystack : List Char) : Bool :=
  haystack.tails.any (fun t => needle.isPrefixOf t)

/-- Python `" ".join(xs)`. -/
def joinSpace : List String → String
  | [] => ""
  | [s] => s
  | s :: rest => s ++ " " ++ joinSpace rest

/-- `ExitReason` enum from `src/src/models.py`. -/
inductive ExitReason where
  | take_profit
  | soft_stop
  | hard_stop
  | settled_win
  | settled_loss
deriving DecidableEq

/-- `PricePoint` dataclass from `src/src/models.py`. -/
structure PricePoint where
  timestamp : ℚ
  price : ℚ
deriving DecidableEq

/-- `Market` dataclass from `src/src/models.py`. -/
structure Market where
  condition_id : String
  token_id : String
  question : String
  category : String
  volume : ℚ
  end_date : ℚ
  resolved_at : Option ℚ
  winning_outcome : Option String
  slug : String := ""
  tags : List String := []
deriving DecidableEq

/-- `Position` dataclass from `src/src/models.py`.  `pid` models Python
object identity (see the file header). -/
structure Position where
  pid : ℕ
  market : Market
  tier_name : String
  entry_price : ℚ
  entry_time : ℚ
  shares : ℚ
  investment : ℚ
  exit_price : Option ℚ := none
  exit_time : Option ℚ := none
  exit_reason : Option ExitReason := none
  fees_paid : ℚ := 0
  soft_stop_triggered_at : Option ℚ := none
  entry_order_id : String := ""
  tp_order_id : String := ""
  exit_order_id : String := ""
deriving DecidableEq

/-- `Position.is_open` property: `exit_price is None`. -/
def Position.is_open (p : Position) : Bool := p.exit_price == none

/-- `Position.pnl` property from `src/src/models.py`. -/
def Position.pnl (p : Position) : ℚ :=
  match p.exit_price with
  | none => 0
  | some ep => (ep - p.entry_price) * p.shares - p.fees_paid

/-- `Portfolio` dataclass from `src/src/models.py` (the `equity_curve`
field is never touched by the embedded code paths and is omitted). -/
structure Portfolio where
  initial_capital : ℚ
  cash : ℚ
  positions : List Position
  closed_positions : List Position
deriving DecidableEq

/-- `Portfolio.open_positions` property: open members of `positions`. -/
def Portfolio.open_positions (pf : Portfolio) : List Position :=
  pf.positions.filter (fun p => p.is_open)

/-- The per-tier condition of `classify_tier` (`src/src/strategy.py`
lines 31-34): price inside the band, inclusive at both ends, and a
strictly positive hours-to-resolution within the tier's bound. -/
abbrev tierMatches (tier : TierConfig) (price hours_to_resolution : ℚ) : Prop :=
  tier.price_low ≤ price ∧ price ≤ tier.price_high
    ∧ 0 < hours_to_resolution
    ∧ hours_to_resolution ≤ tier.max_hours_to_resolution

/-- `classify_tier` from `src/src/strategy.py`, with the `for`-loop over
the tier list made an explicit recursion (first match wins). -/
def classify_tier_in (price hours_to_resolution : ℚ) :
    List TierConfig → Option TierConfig
  | [] => none
  | tier :: rest =>
    if tierMatches tier price hours_to_resolution then
      some tier
    else
      classify_tier_in price hours_to_resolution rest

/-- `classify_tier` from `src/src/strategy.py` over the configured
`TIERS` list. -/
def classify_tier (price hours_to_resolution : ℚ) : Option TierConfig :=
  classify_tier_in price hours_to_resolution TIERS

/-- The combined lowercased text
`f"{category.lower()} {' '.join(tags).lower()} {question.lower()}"`
built inside the super-category check of `check_entry_eligible`. -/
def combinedText (m : Market) : List Char :=
  lowerChars m.category ++ [' '] ++ lowerChars (joinSpace m.tags)
    ++ [' '] ++ lowerChars m.question

/-- Whether any keyword of a super-category cluster occurs in a
market's combined text (`any(kw in combined for kw in keywords)`). -/
def matchesCluster (keywords : List String) (m : Market) : Bool :=
  keywords.any (fun kw => containsSub (kw.toList) (combinedText m))

/-- The super-category gate of `check_entry_eligible`
(`src/src/strategy.py` lines 72-87): only the first cluster whose
keywords match the market is checked; entry is blocked when at least
`MAX_SAME_CATEGORY` open positions match that same cluster. -/
def superCategoryBlocked (m : Market) (open_positions : List Position) : Bool :=
  match SUPER_CATEGORIES.find? (fun c => matchesCluster c.2 m) with
  | none => false
  | some c =>
    MAX_SAME_CATEGORY ≤
      (open_positions.filter (fun p => matchesCluster c.2 p.market)).length

/-- The same-category count of `check_entry_eligible`
(`src/src/strategy.py` lines 65-68). -/
def sameCategoryCount (m : Market) (open_positions : List Position) : ℕ :=
  (open_positions.filter
    (fun p => lowerChars p.market.category == lowerChars m.category)).length

/-- `check_entry_eligible` from `src/src/strategy.py`. -/
def check_entry_eligible (market : Market) (price hours_to_resolution : ℚ)
    (open_positions : List Position) (available_cash : ℚ) :
    Option TierConfig :=
  match classify_tier price hours_to_resolution with
  | none => none
  | some tier =>
    if MAX_CONCURRENT_POSITIONS ≤ open_positions.length then none
    else if open_positions.any
        (fun p => p.market.token_id == market.token_id) then none
    else if available_cash < tier.position_size_usd then none
    else if MAX_SAME_CATEGORY ≤ sameCategoryCount market open_positions then none
    else if superCategoryBlocked market open_positions then none
    else some tier

/-- `check_take_profit` from `src/src/strategy.py`. -/
def check_take_profit (price : ℚ) : Bool :=
  TAKE_PROFIT_PRICE ≤ price

/-- `check_hard_stop` from `src/src/strategy.py`: returns
`(should_exit, new_soft_stop_triggered)`. -/
def check_hard_stop (price : ℚ) (tier : TierConfig)
    (soft_stop_triggered : Bool) (next_price : Option ℚ) : Bool × Bool :=
  if tier.hard_stop_loss ≤ price then (false, false)
  else if !soft_stop_triggered then (false, true)
  else
    let rebound_target := tier.hard_stop_loss + STOP_LOSS_REBOUND_MARGIN
    match next_price with
    | some np => if rebound_target ≤ np then (false, false) else (true, true)
    | none => (true, true)

/-- `compute_entry_price` from `src/src/strategy.py`. -/
def compute_entry_price (market_price price_high : ℚ) : ℚ :=
  min (market_price + SLIPPAGE_TICKS) price_high

/-- `compute_stop_exit_price` from `src/src/strategy.py`. -/
def compute_stop_exit_price (price : ℚ) : ℚ :=
  max (price - STOP_LOSS_SLIPPAGE) (1/100)

/-- State of a `BacktestEngine` (`src/src/backtest/engine.py` and the
legacy `src/backtest_engine.py` hold the same fields): the portfolio,
the cumulative trade log, and the fresh-object counter that models
Python object identity of positions. -/
structure EngineState where
  portfolio : Portfolio
  all_trades : List Position
  next_pid : ℕ
deriving DecidableEq

/-- `BacktestEngine.__init__`: portfolio with `cash = initial_capital`
(via `Portfolio.__post_init__`), no positions, no trades. -/
def mkEngine (initial_capital : ℚ) : EngineState :=
  { portfolio :=
      { initial_capital := initial_capital
        cash := initial_capital
        positions := []
        closed_positions := [] }
    all_trades := []
    next_pid := 0 }

/-- Dereference the Python object reference held in a local variable:
the open-list member carrying this identity. -/
def engine_getPos (st : EngineState) (pid : ℕ) : Option Position :=
  st.portfolio.positions.find? (fun q => q.pid == pid)

/-- In-place mutation `position.soft_stop_triggered_at = trig` on the
position object with identity `pid`. -/
def engine_set_trigger (st : EngineState) (pid : ℕ) (trig : Option ℚ) :
    EngineState :=
  { st with portfolio :=
      { st.portfolio with positions :=
          (st.portfolio.positions.map
            (fun q => if q.pid == pid
              then { q with soft_stop_triggered_at := trig } else q)) } }

/-- `BacktestEngine._open_position` (`src/src/backtest/engine.py` lines
21-38; the legacy `src/backtest_engine.py` lines 94-119 inline the same
entry-price formula). -/
def engine_open_position (st : EngineState) (market : Market) (price : ℚ)
    (tier : TierConfig) (timestamp : ℚ) : EngineState :=
  let entry_price := compute_entry_price price tier.price_high
  let investment := tier.position_size_usd
  let shares := investment / entry_price
  let pos : Position :=
    { pid := st.next_pid
      market := market
      tier_name := tier.name
      entry_price := entry_price
      entry_time := timestamp
      shares := shares
      investment := investment
      fees_paid := investment * MAKER_FEE_PCT }
  { portfolio :=
      { st.portfolio with
          cash := st.portfolio.cash - investment
          positions := st.portfolio.positions ++ [pos] }
    all_trades := st.all_trades
    next_pid := st.next_pid + 1 }

/-- `BacktestEngine._close_position` (`src/src/backtest/engine.py` lines
40-55, textually identical in `src/backtest_engine.py` lines 121-142):
set the exit fields on the position object, charge the fee, credit the
cash, move it from the open list to the closed list and trade log. -/
def engine_close_position (st : EngineState) (pid : ℕ)
    (exit_price timestamp : ℚ) (reason : ExitReason) (is_taker : Bool) :
    EngineState :=
  match engine_getPos st pid with
  | none => st
  | some p =>
    let exit_value := p.shares * exit_price
    let fee := exit_value * (if is_taker then TAKER_FEE_PCT else MAKER_FEE_PCT)
    let p1 := { p with
      exit_price := some exit_price
      exit_time := some timestamp
      exit_reason := some reason
      fees_paid := p.fees_paid + fee }
    { portfolio :=
        { st.portfolio with
            cash := st.portfolio.cash + (exit_value - fee)
            positions := st.portfolio.positions.eraseP (fun q => q.pid == pid)
            closed_positions := st.portfolio.closed_positions ++ [p1] }
      all_trades := st.all_trades ++ [p1]
      next_pid := st.next_pid }

/-- The affirmative-outcome test of `_settle_position`:
`(market.winning_outcome or "").lower() in ("yes", "y", "1", "true")`. -/
def isAffirmativeOutcome (w : Option String) : Bool :=
  let winning := lowerChars (w.getD "")
  winning == "yes".toList || winning == "y".toList
    || winning == "1".toList || winning == "true".toList

/-- `BacktestEngine._settle_position` (identical in both engines). -/
def engine_settle_position (st : EngineState) (pid : ℕ) (market : Market) :
    EngineState :=
  let resolved_at := market.resolved_at.getD market.end_date
  if isAffirmativeOutcome market.winning_outcome then
    engine_close_position st pid 1 resolved_at ExitReason.settled_win false
  else
    engine_close_position st pid 0 resolved_at ExitReason.settled_loss false

/-- Result of one tick of exit evaluation on an open position: keep
holding with an updated soft-stop trigger, or close with a reason and
exit price. -/
inductive ExitTickResult where
  | hold (trigger : Option ℚ)
  | exited (reason : ExitReason) (price : ℚ)
deriving DecidableEq

/-- The per-tick exit evaluation of `BacktestEngine.scan_market`
(`src/src/backtest/engine.py` lines 80-104): `check_hard_stop` first,
then `check_take_profit` (closing at the threshold price), else update
`soft_stop_triggered_at` to the current timestamp when newly triggered
and to `None` otherwise. -/
def exit_eval (tier : TierConfig) (soft_stop_triggered_at : Option ℚ)
    (price : ℚ) (next_price : Option ℚ) (ts : ℚ) : ExitTickResult :=
  let r := check_hard_stop price tier soft_stop_triggered_at.isSome next_price
  if r.1 then
    ExitTickResult.exited ExitReason.hard_stop (compute_stop_exit_price price)
  else if check_take_profit price then
    ExitTickResult.exited ExitReason.take_profit TAKE_PROFIT_PRICE
  else
    ExitTickResult.hold (if r.2 then some ts else none)

/-- The exit phase of one `scan_market` loop iteration
(`src/src/backtest/engine.py` lines 79-104).  `track` models the local
`position`/`tier` pair (`none` when `position is None`).  Returns the
new state, the new `track`, and whether control falls through to the
entry checks (a close falls through; a hold `continue`s). -/
def scan_tick_exit (st : EngineState) (track : Option (ℕ × TierConfig))
    (pp : PricePoint) (next_price : Option ℚ) :
    EngineState × Option (ℕ × TierConfig) × Bool :=
  match track with
  | none => (st, none, true)
  | some (pid, tier) =>
    match engine_getPos st pid with
    | none => (st, track, true)
    | some p =>
      if p.is_open then
        match exit_eval tier p.soft_stop_triggered_at pp.price next_price
            pp.timestamp with
        | ExitTickResult.exited reason price =>
          (engine_close_position st pid price pp.timestamp reason
            (reason == ExitReason.hard_stop), none, true)
        | ExitTickResult.hold trig =>
          (engine_set_trigger st pid trig, track, false)
      else (st, track, true)

/-- The entry phase of one `scan_market` loop iteration
(`src/src/backtest/engine.py` lines 106-116): delegate to the shared
`check_entry_eligible` and open on approval. -/
def scan_tick_entry (market : Market) (hours : ℚ) (st : EngineState)
    (track : Option (ℕ × TierConfig)) (pp : PricePoint) :
    EngineState × Option (ℕ × TierConfig) :=
  match check_entry_eligible market pp.price hours
      st.portfolio.open_positions st.portfolio.cash with
  | none => (st, track)
  | some ctier =>
    (engine_open_position st market pp.price ctier pp.timestamp,
      some (st.next_pid, ctier))

/-- One loop iteration of `BacktestEngine.scan_market`
(`src/src/backtest/engine.py` lines 72-116). -/
def scan_tick (market : Market) (res : ℚ) (st : EngineState)
    (track : Option (ℕ × TierConfig)) (pp : PricePoint)
    (next_price : Option ℚ) : EngineState × Option (ℕ × TierConfig) :=
  let hours := res - pp.timestamp
  if hours < 0 then (st, track)
  else
    let r := scan_tick_exit st track pp next_price
    if r.2.2 then scan_tick_entry market hours r.1 r.2.1 pp
    else (r.1, r.2.1)

/-- The tick loop of `BacktestEngine.scan_market`, with the one-tick
price look-ahead `prices[i + 1].price if i + 1 < len(prices) else None`
realised as the head of the remaining list. -/
def scan_loop (market : Market) (res : ℚ) :
    EngineState → Option (ℕ × TierConfig) → List PricePoint →
    EngineState × Option (ℕ × TierConfig)
  | st, track, [] => (st, track)
  | st, track, pp :: rest =>
    let next_price := match rest with | [] => none | q :: _ => some q.price
    let r := scan_tick market res st track pp next_price
    scan_loop market res r.1 r.2 rest

/-- `BacktestEngine.scan_market` from `src/src/backtest/engine.py`:
guard on empty prices or missing resolution, run the tick loop, then
settle a still-open tracked position. -/
def scan_market (st : EngineState) (market : Market)
    (prices : List PricePoint) : EngineState :=
  match market.resolved_at with
  | none => st
  | some res =>
    if prices.isEmpty then st
    else
      let r := scan_loop market res st none prices
      match r.2 with
      | none => r.1
      | some (pid, _) =>
        match engine_getPos r.1 pid with
        | none => r.1
        | some p =>
          if p.is_open then engine_settle_position r.1 pid market else r.1

/-- Replay of the exit evaluation alone over a `(timestamp, price)`
sequence with one-tick look-ahead, starting from an open position with
the given trigger state; records the per-tick outcome and stops at the
first exit.  Built directly on `exit_eval`, the engine's per-tick exit
evaluation. -/
def replay_exit_states (tier : TierConfig) :
    Option ℚ → List (ℚ × ℚ) → List ExitTickResult
  | _, [] => []
  | trigger, (ts, price) :: rest =>
    let next_price := match rest with | [] => none | q :: _ => some q.2
    match exit_eval tier trigger price next_price ts with
    | ExitTickResult.hold trig =>
      ExitTickResult.hold trig :: replay_exit_states tier trig rest
    | ExitTickResult.exited reason p => [ExitTickResult.exited reason p]

/-- `BacktestEngine._check_take_profit` of the legacy
`src/backtest_engine.py` (lines 148-157): close at the threshold price
when `price >= TAKE_PROFIT_PRICE`; reports whether it closed. -/
def legacy_tp_check (st : EngineState) (pid : ℕ) (pp : PricePoint) :
    EngineState × Bool :=
  if check_take_profit pp.price then
    (engine_close_position st pid TAKE_PROFIT_PRICE pp.timestamp
      ExitReason.take_profit false, true)
  else (st, false)

/-- The legacy exit evaluation: `_check_hard_stop` (lines 159-186,
which mutates `soft_stop_triggered_at` in place before returning)
followed by `_check_take_profit` when it did not close.  Returns the
new state and whether the position closed. -/
def legacy_exit_phase (st : EngineState) (pid : ℕ) (tier : TierConfig)
    (p : Position) (pp : PricePoint) (next_price : Option ℚ) :
    EngineState × Bool :=
  if tier.hard_stop_loss ≤ pp.price then
    legacy_tp_check (engine_set_trigger st pid none) pid pp
  else if p.soft_stop_triggered_at == none then
    legacy_tp_check (engine_set_trigger st pid (some pp.timestamp)) pid pp
  else
    match next_price with
    | some np =>
      if tier.hard_stop_loss + STOP_LOSS_REBOUND_MARGIN ≤ np then
        legacy_tp_check (engine_set_trigger st pid none) pid pp
      else
        (engine_close_position st pid (compute_stop_exit_price pp.price)
          pp.timestamp ExitReason.hard_stop true, true)
    | none =>
      (engine_close_position st pid (compute_stop_exit_price pp.price)
        pp.timestamp ExitReason.hard_stop true, true)

/-- The inlined entry checks of the legacy `scan_market`
(`src/backtest_engine.py` lines 240-254), in their source order:
duplicate market, tier classification, position limit, category and
super-category caps, cash. -/
def legacy_entry_decision (market : Market) (price hours : ℚ)
    (open_positions : List Position) (cash : ℚ) : Option TierConfig :=
  if open_positions.any (fun p => p.market.token_id == market.token_id) then
    none
  else
    match classify_tier price hours with
    | none => none
    | some ct =>
      if MAX_CONCURRENT_POSITIONS ≤ open_positions.length then none
      else if MAX_SAME_CATEGORY ≤ sameCategoryCount market open_positions then
        none
      else if superCategoryBlocked market open_positions then none
      else if cash < ct.position_size_usd then none
      else some ct

/-- The exit phase of one legacy `scan_market` loop iteration
(`src/backtest_engine.py` lines 226-237). -/
def legacy_scan_tick_exit (st : EngineState)
    (track : Option (ℕ × TierConfig)) (pp : PricePoint)
    (next_price : Option ℚ) :
    EngineState × Option (ℕ × TierConfig) × Bool :=
  match track with
  | none => (st, none, true)
  | some (pid, tier) =>
    match engine_getPos st pid with
    | none => (st, track, true)
    | some p =>
      if p.is_open then
        let r := legacy_exit_phase st pid tier p pp next_price
        if r.2 then (r.1, none, true) else (r.1, track, false)
      else (st, track, true)

/-- The entry phase of one legacy `scan_market` loop iteration
(`src/backtest_engine.py` lines 239-258), using the inlined checks. -/
def legacy_scan_tick_entry (market : Market) (hours : ℚ)
    (st : EngineState) (track : Option (ℕ × TierConfig))
    (pp : PricePoint) : EngineState × Option (ℕ × TierConfig) :=
  match legacy_entry_decision market pp.price hours
      st.portfolio.open_positions st.portfolio.cash with
  | none => (st, track)
  | some ctier =>
    (engine_open_position st market pp.price ctier pp.timestamp,
      some (st.next_pid, ctier))

/-- One loop iteration of the legacy `scan_market`
(`src/backtest_engine.py` lines 219-258). -/
def legacy_scan_tick (market : Market) (res : ℚ) (st : EngineState)
    (track : Option (ℕ × TierConfig)) (pp : PricePoint)
    (next_price : Option ℚ) : EngineState × Option (ℕ × TierConfig) :=
  let hours := res - pp.timestamp
  if hours < 0 then (st, track)
  else
    let r := legacy_scan_tick_exit st track pp next_price
    if r.2.2 then legacy_scan_tick_entry market hours r.1 r.2.1 pp
    else (r.1, r.2.1)

/-- The tick loop of the legacy `scan_market`. -/
def legacy_scan_loop (market : Market) (res : ℚ) :
    EngineState → Option (ℕ × TierConfig) → List PricePoint →
    EngineState × Option (ℕ × TierConfig)
  | st, track, [] => (st, track)
  | st, track, pp :: rest =>
    let next_price := match rest with | [] => none | q :: _ => some q.price
    let r := legacy_scan_tick market res st track pp next_price
    legacy_scan_loop market res r.1 r.2 rest

/-- `BacktestEngine.scan_market` from the legacy
`src/backtest_engine.py` (lines 208-263). -/
def legacy_scan_market (st : EngineState) (market : Market)
    (prices : List PricePoint) : EngineState :=
  match market.resolved_at with
  | none => st
  | some res =>
    if prices.isEmpty then st
    else
      let r := legacy_scan_loop market res st none prices
      match r.2 with
      | none => r.1
      | some (pid, _) =>
        match engine_getPos r.1 pid with
        | none => r.1
        | some p =>
          if p.is_open then engine_settle_position r.1 pid market else r.1

/-- The observables of a closed trade named by the refinement claim:
entry price, entry time, exit price, exit time, exit reason, fees. -/
def tradeObs (p : Position) :
    ℚ × ℚ × Option ℚ × Option ℚ × Option ExitReason × ℚ :=
  (p.entry_price, p.entry_time, p.exit_price, p.exit_time,
    p.exit_reason, p.fees_paid)

/-- `RiskManager` dataclass from `src/src/live/risk.py`. -/
structure RiskManager where
  initial_capital : ℚ
  realized_pnl : ℚ := 0
  consecutive_losses : ℕ := 0
  total_trades : ℕ := 0
  tripped : Bool := false
  tripped_at : Option ℚ := none
  trade_log : List ℚ := []
deriving DecidableEq

/-- `RiskManager._should_trip` from `src/src/live/risk.py` (lines
50-84), with the configured defaults `CIRCUIT_BREAKER_MAX_LOSS_USD =
500` and `CIRCUIT_BREAKER_MAX_LOSS_PCT = 0.10`. -/
def should_trip (rm : RiskManager) : Bool :=
  if rm.tripped then true
  else if rm.realized_pnl ≤ -CIRCUIT_BREAKER_MAX_LOSS_USD then true
  else if 0 < rm.initial_capital ∧ rm.realized_pnl < 0
      ∧ CIRCUIT_BREAKER_MAX_LOSS_PCT ≤ |rm.realized_pnl| / rm.initial_capital
    then true
  else if CIRCUIT_BREAKER_MAX_CONSECUTIVE_LOSSES ≤ rm.consecutive_losses then
    true
  else false

/-- `RiskManager.record_trade` from `src/src/live/risk.py` (lines
30-48); `now` stands for `datetime.now(timezone.utc)`. -/
def record_trade (rm : RiskManager) (pnl now : ℚ) : RiskManager :=
  let rm1 := { rm with
    realized_pnl := rm.realized_pnl + pnl
    total_trades := rm.total_trades + 1
    trade_log := rm.trade_log ++ [pnl]
    consecutive_losses := if pnl ≤ 0 then rm.consecutive_losses + 1 else 0 }
  if should_trip rm1 then { rm1 with tripped := true, tripped_at := some now }
  else rm1

/-- `RiskManager.reset` from `src/src/live/risk.py`. -/
def risk_reset (rm : RiskManager) : RiskManager :=
  { rm with tripped := false, tripped_at := none, consecutive_losses := 0 }

/-- A sequence of `record_trade` calls, each with a `(pnl, now)` pair. -/
def record_trades (rm : RiskManager) (l : List (ℚ × ℚ)) : RiskManager :=
  l.foldl (fun r x => record_trade r x.1 x.2) rm

/-- `OrderResult` dataclass from `src/src/models.py`. -/
structure OrderResult where
  order_id : String
  status : String
  filled_size : ℚ := 0
  avg_fill_price : ℚ := 0
deriving DecidableEq

/-- The state owned by `OrderExecutor` (`src/src/live/executor.py`):
cash, position lists, and the risk manager.  The CLOB client is an
external collaborator; its replies enter as explicit arguments. -/
structure ExecState where
  cash : ℚ
  positions : List Position
  closed_positions : List Position
  risk : RiskManager
  next_pid : ℕ
deriving DecidableEq

/-- `OrderExecutor.open_position` from `src/src/live/executor.py`
(lines 37-102).  `buy_order` and `tp_order` are the results the CLOB
client returns for the two `place_order` calls; `now` stands for
`datetime.now(timezone.utc)`.  Gate order as in the source: circuit
breaker, cash, buy placement status. -/
def exec_open_position (st : ExecState) (market : Market) (bid_price : ℚ)
    (tier : TierConfig) (now : ℚ) (buy_order tp_order : OrderResult) :
    ExecState × Option Position :=
  if st.risk.tripped then (st, none)
  else if st.cash < tier.position_size_usd then (st, none)
  else
    let entry_price := compute_entry_price bid_price tier.price_high
    let shares := tier.position_size_usd / entry_price
    if buy_order.status == "FAILED" then (st, none)
    else
      let pos : Position :=
        { pid := st.next_pid
          market := market
          tier_name := tier.name
          entry_price := entry_price
          entry_time := now
          shares := shares
          investment := tier.position_size_usd
          fees_paid := tier.position_size_usd * MAKER_FEE_PCT
          entry_order_id := buy_order.order_id
          tp_order_id := tp_order.order_id }
      ({ st with
          cash := st.cash - tier.position_size_usd
          positions := st.positions ++ [pos]
          next_pid := st.next_pid + 1 },
        some pos)

/-- Ledger well-formedness: position identities are fresh with respect
to the counter, distinct inside the open list, and never shared between
the open list and the closed list (the claimed open/closed
disjointness, phrased through the object identities `pid`). -/
def LedgerWF (st : EngineState) : Prop :=
  (∀ p ∈ st.portfolio.positions, p.pid < st.next_pid) ∧
  (∀ p ∈ st.portfolio.closed_positions, p.pid < st.next_pid) ∧
  (st.portfolio.positions.map Position.pid).Nodup ∧
  (∀ p ∈ st.portfolio.positions, ∀ q ∈ st.portfolio.closed_positions,
    p.pid ≠ q.pid)

/-- Entry-pricing discipline: the position was entered, for some
configured tier and some observed price point of the series, at
`min(observed + SLIPPAGE_TICKS, tier.price_high)`. -/
def entryPriceOk (prices : List PricePoint) (p : Position) : Prop :=
  ∃ t ∈ TIERS, t.name = p.tier_name ∧
    ∃ pp ∈ prices, p.entry_price = min (pp.price + SLIPPAGE_TICKS) t.price_high
      ∧ p.entry_time = pp.timestamp

/-- Fee discipline of a closed trade: a hard-stop close carries exactly
the taker fee on its exit value and a slippage-adjusted exit price from
an observed tick; every other close carries zero total fees. -/
def closedFeeOk (prices : List PricePoint) (p : Position) : Prop :=
  match p.exit_reason, p.exit_price with
  | some ExitReason.hard_stop, some ep =>
      p.fees_paid = p.shares * ep * TAKER_FEE_PCT ∧
      ∃ pp ∈ prices, ep = max (pp.price - STOP_LOSS_SLIPPAGE) (1/100)
  | some ExitReason.hard_stop, none => False
  | some _, _ => p.fees_paid = 0
  | none, _ => False

/-- Invariant carried through the scan loop for the fee/pricing claim:
open positions follow the entry-pricing rule and have accrued no fee,
completed trades follow the fee discipline. -/
def FeeInv (prices : List PricePoint) (st : EngineState) : Prop :=
  (∀ p ∈ st.portfolio.positions, entryPriceOk prices p ∧ p.fees_paid = 0) ∧
  (∀ p ∈ st.all_trades, entryPriceOk prices p ∧ closedFeeOk prices p)

/-- The observational-equality relation between a legacy-engine state
and a refactored-engine state: identical cash, open positions and
identity counter, and closed trades equal on all observables of
`tradeObs`. -/
def EqObs (a b : EngineState) : Prop :=
  a.portfolio.initial_capital = b.portfolio.initial_capital ∧
  a.portfolio.cash = b.portfolio.cash ∧
  a.portfolio.positions = b.portfolio.positions ∧
  a.portfolio.closed_positions.map tradeObs
    = b.portfolio.closed_positions.map tradeObs ∧
  a.all_trades.map tradeObs = b.all_trades.map tradeObs ∧
  a.next_pid = b.next_pid

/-- The part of ledger well-formedness the equivalence proof needs:
open-position identities are distinct and below the counter. -/
def PosWF (st : EngineState) : Prop :=
  (st.portfolio.positions.map Position.pid).Nodup ∧
  ∀ p ∈ st.portfolio.positions, p.pid < st.next_pid

/-- The end-to-end scenario market: one market whose resolution time is
7 (hours), so the three hourly ticks at times 0, 1, 2 sit 7, 6 and 5
hours before resolution, resolving "Yes".  Its text matches no
super-category keyword. -/
def c9_market : Market :=
  { condition_id := "c9"
    token_id := "tok9"
    question := "zzz"
    category := "zzz"
    volume := 10000
    end_date := 7
    resolved_at := some 7
    winning_outcome := some "Yes" }

/-- The end-to-end scenario price series: 0.95 at t0, 0.97 at t1 (6h to
resolution), 0.992 at t2 (5h to resolution). -/
def c9_prices : List PricePoint :=
  [⟨0, 95/100⟩, ⟨1, 97/100⟩, ⟨2, 992/1000⟩]

/-- The single trade the backtest engine produces on the end-to-end
scenario: entered at t0 at 0.951, closed by take-profit at t2 at 0.99,
zero fees. -/
def c9_trade : Position :=
  { pid := 0
    market := c9_market
    tier_name := "TierA"
    entry_price := 951/1000
    entry_time := 0
    shares := 50000/951
    investment := 50
    exit_price := some (99/100)
    exit_time := some 2
    exit_reason := some ExitReason.take_profit
    fees_paid := 0 }

/-- A market whose price cannot classify into any tier (used to witness
the monotonicity claim at a concrete rejected entry). -/
def sample_market : Market :=
  { condition_id := "m0"
    token_id := "tok0"
    question := "zzz"
    category := "zzz"
    volume := 10000
    end_date := 7
    resolved_at := some 7
    winning_outcome := some "No" }

/-- A concrete open position on `sample_market`. -/
def sample_position : Position :=
  { pid := 0
    market := sample_market
    tier_name := "TierA"
    entry_price := 951/1000
    entry_time := 0
    shares := 50000/951
    investment := 50 }

/-- Claim C1: replaying `[0.86, 0.80, 0.80]` through the backtest exit
evaluation against hard-stop 0.85 (tier A) and rebound margin 0.01,
from an open position in Normal state, leaves it Normal after tick 1,
sets the soft-stop trigger at tick 2, and closes it at tick 3 with
reason hard-stop; replaying `[0.86, 0.80, 0.87]` instead clears the
trigger at tick 3 and the position stays open with no exit. -/
theorem C1_exit_state_machine :
    replay_exit_states TIER_A none [(1, 86/100), (2, 80/100), (3, 80/100)] =
      [ExitTickResult.hold none, ExitTickResult.hold (some 2),
        ExitTickResult.exited ExitReason.hard_stop (79/100)] ∧
    replay_exit_states TIER_A none [(1, 86/100), (2, 80/100), (3, 87/100)] =
      [ExitTickResult.hold none, ExitTickResult.hold (some 2),
        ExitTickResult.hold none] := by
  decide!

/-- Claim C2: whenever the observed price reaches the take-profit
threshold and the tier's hard-stop level is at most that threshold, the
engine's per-tick exit evaluation closes the position with reason
take-profit at exactly the threshold price — never with reason
hard-stop — regardless of the soft-stop trigger state. -/
theorem C2_take_profit_preempts_hard_stop (tier : TierConfig)
    (trigger : Option ℚ) (price : ℚ) (next_price : Option ℚ) (ts : ℚ)
    (hstop : tier.hard_stop_loss ≤ TAKE_PROFIT_PRICE)
    (htp : TAKE_PROFIT_PRICE ≤ price) :
    exit_eval tier trigger price next_price ts =
      ExitTickResult.exited ExitReason.take_profit TAKE_PROFIT_PRICE := by
  have h1 : tier.hard_stop_loss ≤ price := le_trans hstop htp
  unfold exit_eval check_hard_stop check_take_profit
  simp [h1, htp]

/-- Witness for C2 at tier A, price 1.0, with the trigger set. -/
theorem C2_witness :
    TIER_A.hard_stop_loss ≤ TAKE_PROFIT_PRICE ∧ TAKE_PROFIT_PRICE ≤ 1 ∧
    exit_eval TIER_A (some 0) 1 none 5 =
      ExitTickResult.exited ExitReason.take_profit TAKE_PROFIT_PRICE :=
  ⟨by decide!, by decide!,
    C2_take_profit_preempts_hard_stop TIER_A (some 0) 1 none 5
      (by decide!) (by decide!)⟩

/-- Claim C7: for every price inside some configured tier's band
(inclusive at both ends) and hours-to-resolution `0 < h ≤` that tier's
bound, classification returns the first such tier in declared order;
for `h ≤ 0`, or a price outside every band, it returns none; and the
engine's `classify_tier` is exactly this scan over `TIERS`. -/
theorem C7_classify_tier :
    (∀ tiers price h, (∃ t ∈ tiers, tierMatches t price h) →
      ∃ pre t post, tiers = pre ++ t :: post ∧
        classify_tier_in price h tiers = some t ∧ tierMatches t price h ∧
        ∀ t2 ∈ pre, ¬ tierMatches t2 price h) ∧
    (∀ tiers price h, h ≤ 0 → classify_tier_in price h tiers = none) ∧
    (∀ tiers price h,
      (∀ t ∈ tiers, ¬(t.price_low ≤ price ∧ price ≤ t.price_high)) →
      classify_tier_in price h tiers = none) ∧
    (∀ price h, classify_tier price h = classify_tier_in price h TIERS) := by
  refine ⟨?_, ?_, ?_, fun _ _ => rfl⟩
  · intro tiers price h hex
    induction tiers with
    | nil => simp at hex
    | cons t rest ih =>
      by_cases hc : tierMatches t price h
      · exact ⟨[], t, rest, rfl, by simp [classify_tier_in, hc], hc, by simp⟩
      · obtain ⟨t0, ht0mem, ht0⟩ := hex
        rcases List.mem_cons.mp ht0mem with h0 | h0
        · exact absurd (h0 ▸ ht0) hc
        · obtain ⟨pre, tt, post, heq, hres, hm, hpre⟩ := ih ⟨t0, h0, ht0⟩
          exact ⟨t :: pre, tt, post, by rw [heq]; rfl,
            by simp [classify_tier_in, hc, hres], hm,
            by
              intro t2 ht2
              rcases List.mem_cons.mp ht2 with h2 | h2
              · exact h2 ▸ hc
              · exact hpre t2 h2⟩
  · intro tiers price h hh
    induction tiers with
    | nil => rfl
    | cons t rest ih =>
      have hnm : ¬ tierMatches t price h := fun hm =>
        absurd hm.2.2.1 (not_lt.mpr hh)
      simp [classify_tier_in, hnm, ih]
  · intro tiers price h hband
    induction tiers with
    | nil => rfl
    | cons t rest ih =>
      have hnm : ¬ tierMatches t price h := fun hm =>
        hband t (List.mem_cons_self t rest) ⟨hm.1, hm.2.1⟩
      have ih2 := ih (fun t2 ht2 => hband t2 (List.mem_cons_of_mem t ht2))
      simp [classify_tier_in, hnm, ih2]

/-- Witness for C7: tier A is found at price 0.95 and 5 hours; a
negative horizon and an out-of-band price both yield none. -/
theorem C7_witness :
    (∃ pre t post, TIERS = pre ++ t :: post ∧
      classify_tier_in (95/100) 5 TIERS = some t ∧ tierMatches t (95/100) 5 ∧
      ∀ t2 ∈ pre, ¬ tierMatches t2 (95/100) 5) ∧
    classify_tier_in (95/100) (-3) TIERS = none ∧
    classify_tier_in (1/2) 5 TIERS = none ∧
    classify_tier (95/100) 5 = classify_tier_in (95/100) 5 TIERS :=
  ⟨C7_classify_tier.1 TIERS (95/100) 5 ⟨TIER_A, by decide!, by decide!⟩,
    C7_classify_tier.2.1 TIERS (95/100) (-3) (by decide!),
    C7_classify_tier.2.2.1 TIERS (1/2) 5 (by decide!),
    C7_classify_tier.2.2.2 (95/100) 5⟩

/-- Appending open positions can only grow the same-category count. -/
theorem sameCategoryCount_mono (m : Market) (ops ext : List Position) :
    sameCategoryCount m ops ≤ sameCategoryCount m (ops ++ ext) := by
  unfold sameCategoryCount
  rw [List.filter_append, List.length_append]
  exact Nat.le_add_right _ _

/-- Appending open positions preserves a super-category block. -/
theorem superCategoryBlocked_mono (m : Market) (ops ext : List Position)
    (h : superCategoryBlocked m ops = true) :
    superCategoryBlocked m (ops ++ ext) = true := by
  unfold superCategoryBlocked at h ⊢
  cases hf : SUPER_CATEGORIES.find? (fun c => matchesCluster c.2 m) with
  | none => rw [hf] at h; simp at h
  | some c =>
    rw [hf] at h
    simp only [decide_eq_true_eq] at h ⊢
    rw [List.filter_append, List.length_append]
    omega

/-- Claim C6: entry eligibility is monotone in the open-position list —
a rejected entry stays rejected after appending any further open
position to the list. -/
theorem C6_entry_monotone (market : Market) (price h : ℚ)
    (ops : List Position) (cash : ℚ) (q : Position)
    (hnone : check_entry_eligible market price h ops cash = none) :
    check_entry_eligible market price h (ops ++ [q]) cash = none := by
  unfold check_entry_eligible at hnone ⊢
  cases hc : classify_tier price h with
  | none => rfl
  | some tier =>
    rw [hc] at hnone
    dsimp only at hnone ⊢
    by_cases h1 : MAX_CONCURRENT_POSITIONS ≤ (ops ++ [q]).length
    · rw [if_pos h1]
    · rw [if_neg h1]
      have h1o : ¬ MAX_CONCURRENT_POSITIONS ≤ ops.length := by
        rw [List.length_append] at h1; omega
      rw [if_neg h1o] at hnone
      by_cases h2 : ((ops ++ [q]).any
          (fun p => p.market.token_id == market.token_id)) = true
      · rw [if_pos h2]
      · rw [if_neg h2]
        have h2o : ¬ (ops.any
            (fun p => p.market.token_id == market.token_id)) = true := by
          intro hcon
          exact h2 (by rw [List.any_append, hcon, Bool.true_or])
        rw [if_neg h2o] at hnone
        by_cases h3 : cash < tier.position_size_usd
        · rw [if_pos h3]
        · rw [if_neg h3]
          rw [if_neg h3] at hnone
          by_cases h4 : MAX_SAME_CATEGORY ≤ sameCategoryCount market (ops ++ [q])
          · rw [if_pos h4]
          · rw [if_neg h4]
            have h4o : ¬ MAX_SAME_CATEGORY ≤ sameCategoryCount market ops :=
              fun hcon => h4 (le_trans hcon (sameCategoryCount_mono market ops [q]))
            rw [if_neg h4o] at hnone
            by_cases h5 : (superCategoryBlocked market (ops ++ [q])) = true
            · rw [if_pos h5]
            · have h5o : ¬ (superCategoryBlocked market ops) = true :=
                fun hcon => h5 (superCategoryBlocked_mono market ops [q] hcon)
              rw [if_neg h5o] at hnone
              exact absurd hnone (by simp)

/-- Witness for C6: a rejected entry (price 0.5 matches no tier) stays
rejected after appending a further open position. -/
theorem C6_witness :
    check_entry_eligible sample_market (1/2) 5 [] 10000 = none ∧
    check_entry_eligible sample_market (1/2) 5 ([] ++ [sample_position]) 10000
      = none :=
  ⟨by decide!,
    C6_entry_monotone sample_market (1/2) 5 [] 10000 sample_position
      (by decide!)⟩

/-- Claim C4: a live entry attempt returns `None` and leaves the
executor's state untouched — no position appended, no cash debited —
whenever the buy placement comes back `FAILED` or the circuit breaker
is tripped. -/
theorem C4_failed_entry_leaves_executor_unchanged (st : ExecState)
    (market : Market) (bid : ℚ) (tier : TierConfig) (now : ℚ)
    (buy_order tp_order : OrderResult)
    (h : buy_order.status = "FAILED" ∨ st.risk.tripped = true) :
    exec_open_position st market bid tier now buy_order tp_order
      = (st, none) := by
  unfold exec_open_position
  rcases h with h | h
  · by_cases ht : st.risk.tripped = true
    · simp [ht]
    · simp only [Bool.not_eq_true] at ht
      by_cases hc : st.cash < tier.position_size_usd
      · simp [ht, hc]
      · simp [ht, hc, h]
  · simp [h]

/-- Witness for C4: a failed buy on an untripped executor. -/
theorem C4_witness :
    exec_open_position
        ⟨1000, [], [], ⟨1000, 0, 0, 0, false, none, []⟩, 0⟩
        sample_market (95/100) TIER_A 3
        ⟨"", "FAILED", 0, 0⟩ ⟨"", "LIVE", 0, 0⟩
      = (⟨1000, [], [], ⟨1000, 0, 0, 0, false, none, []⟩, 0⟩, none) :=
  C4_failed_entry_leaves_executor_unchanged
    ⟨1000, [], [], ⟨1000, 0, 0, 0, false, none, []⟩, 0⟩
    sample_market (95/100) TIER_A 3
    ⟨"", "FAILED", 0, 0⟩ ⟨"", "LIVE", 0, 0⟩ (Or.inl rfl)

/-- `record_trade` updates the consecutive-loss counter exactly as the
source does: increment on `pnl ≤ 0`, reset to zero otherwise. -/
theorem record_trade_consecutive (rm : RiskManager) (pnl now : ℚ) :
    (record_trade rm pnl now).consecutive_losses =
      if pnl ≤ 0 then rm.consecutive_losses + 1 else 0 := by
  unfold record_trade
  dsimp only
  split <;> split <;> rfl

/-- `record_trade` never clears an already-tripped breaker. -/
theorem record_trade_keeps_tripped (rm : RiskManager) (pnl now : ℚ)
    (h : rm.tripped = true) : (record_trade rm pnl now).tripped = true := by
  unfold record_trade should_trip
  simp [h]

/-- `_should_trip` fires once the consecutive-loss threshold is hit. -/
theorem should_trip_of_consecutive (rm : RiskManager)
    (h : CIRCUIT_BREAKER_MAX_CONSECUTIVE_LOSSES ≤ rm.consecutive_losses) :
    should_trip rm = true := by
  unfold should_trip
  split_ifs <;> rfl

/-- A `record_trade` call whose updated counter reaches the threshold
leaves the breaker tripped. -/
theorem record_trade_trips_at_max (rm : RiskManager) (pnl now : ℚ)
    (h : CIRCUIT_BREAKER_MAX_CONSECUTIVE_LOSSES ≤
        (if pnl ≤ 0 then rm.consecutive_losses + 1 else 0)) :
    (record_trade rm pnl now).tripped = true := by
  unfold record_trade
  have hs := should_trip_of_consecutive
    { rm with
      realized_pnl := rm.realized_pnl + pnl
      total_trades := rm.total_trades + 1
      trade_log := rm.trade_log ++ [pnl]
      consecutive_losses := if pnl ≤ 0 then rm.consecutive_losses + 1 else 0 }
    (by simpa using h)
  simp [hs]

/-- Unfolding one step of `record_trades`. -/
theorem record_trades_cons (rm : RiskManager) (x : ℚ × ℚ)
    (l : List (ℚ × ℚ)) :
    record_trades rm (x :: l) = record_trades (record_trade rm x.1 x.2) l :=
  rfl

/-- Splitting the last element off a `record_trades` run. -/
theorem record_trades_concat (rm : RiskManager) (l : List (ℚ × ℚ))
    (b : ℚ × ℚ) :
    record_trades rm (l ++ [b])
      = record_trade (record_trades rm l) b.1 b.2 := by
  simp [record_trades, List.foldl_append]

/-- Over a run of non-winning trades the counter grows by the count. -/
theorem record_trades_consecutive (l : List (ℚ × ℚ)) (rm : RiskManager)
    (h : ∀ x ∈ l, x.1 ≤ 0) :
    (record_trades rm l).consecutive_losses
      = rm.consecutive_losses + l.length := by
  induction l generalizing rm with
  | nil => simp [record_trades]
  | cons x rest ih =>
    rw [record_trades_cons, ih _ (fun y hy => h y (List.mem_cons_of_mem x hy)),
      record_trade_consecutive, if_pos (h x (List.mem_cons_self x rest))]
    simp only [List.length_cons]
    omega

/-- Claim C5: ten consecutive strictly-losing trades trip the breaker
from an untripped start regardless of magnitudes; one strictly winning
trade zeroes the consecutive-loss counter without clearing an
already-tripped flag, which only the manual reset clears. -/
theorem C5_circuit_breaker :
    (∀ rm l, rm.tripped = false →
      l.length = CIRCUIT_BREAKER_MAX_CONSECUTIVE_LOSSES →
      (∀ x ∈ l, x.1 < 0) → (record_trades rm l).tripped = true) ∧
    (∀ rm pnl now, 0 < pnl →
      (record_trade rm pnl now).consecutive_losses = 0 ∧
      (rm.tripped = true → (record_trade rm pnl now).tripped = true) ∧
      (risk_reset rm).tripped = false) := by
  constructor
  · intro rm l h0 hlen hneg
    have hne : l ≠ [] := by
      intro he
      rw [he] at hlen
      simp [CIRCUIT_BREAKER_MAX_CONSECUTIVE_LOSSES] at hlen
    obtain ⟨L, b, rfl⟩ := (List.eq_nil_or_concat l).resolve_left hne
    have hconcat : L.concat b = L ++ [b] := List.concat_eq_append L b
    rw [hconcat] at hlen hneg ⊢
    rw [record_trades_concat]
    apply record_trade_trips_at_max
    have hcount := record_trades_consecutive L rm
      (fun y hy => le_of_lt (hneg y (List.mem_append_left [b] hy)))
    have hb : b.1 ≤ 0 :=
      le_of_lt (hneg b (List.mem_append_right L (List.mem_singleton_self b)))
    rw [if_pos hb, hcount]
    have hL : L.length + 1 = CIRCUIT_BREAKER_MAX_CONSECUTIVE_LOSSES := by
      simpa using hlen
    omega
  · intro rm pnl now hp
    refine ⟨?_, record_trade_keeps_tripped rm pnl now, rfl⟩
    rw [record_trade_consecutive, if_neg (not_le.mpr hp)]

/-- Witness for C5: a fresh manager trips after ten $-1 losses; a $5
win on a tripped manager zeroes the counter but stays tripped, and the
manual reset untrips. -/
theorem C5_witness :
    (record_trades ⟨1000, 0, 0, 0, false, none, []⟩
        (List.replicate 10 ((-1 : ℚ), (0 : ℚ)))).tripped = true ∧
    (record_trade ⟨2000, -100, 3, 7, true, some 1, [-100]⟩ 5 9
        ).consecutive_losses = 0 ∧
    (record_trade ⟨2000, -100, 3, 7, true, some 1, [-100]⟩ 5 9
        ).tripped = true ∧
    (risk_reset ⟨2000, -100, 3, 7, true, some 1, [-100]⟩).tripped = false := by
  have h1 := C5_circuit_breaker.1 ⟨1000, 0, 0, 0, false, none, []⟩
    (List.replicate 10 ((-1 : ℚ), (0 : ℚ))) rfl rfl
    (by
      intro x hx
      rw [List.eq_of_mem_replicate hx]
      norm_num)
  have h2 := C5_circuit_breaker.2 ⟨2000, -100, 3, 7, true, some 1, [-100]⟩
    5 9 (by norm_num)
  exact ⟨h1, h2.1, h2.2.1 rfl, h2.2.2⟩

/-- Inside a list of positions with distinct identities, erasing the
position carrying identity `i` leaves no member with identity `i`. -/
theorem mem_eraseP_pid_ne (l : List Position) (i : ℕ)
    (hnd : (l.map Position.pid).Nodup)
    (hex : ∃ p ∈ l, p.pid = i) (a : Position)
    (ha : a ∈ l.eraseP (fun q => q.pid == i)) : a.pid ≠ i := by
  induction l with
  | nil => simp at ha
  | cons b rest ih =>
    rw [List.map_cons, List.nodup_cons] at hnd
    obtain ⟨hb_nin, hnd_rest⟩ := hnd
    by_cases hb : (b.pid == i) = true
    · have he : List.eraseP (fun q => q.pid == i) (b :: rest) = rest :=
        List.eraseP_cons_of_pos hb
      rw [he] at ha
      have hbi : b.pid = i := by simpa using hb
      intro hai
      apply hb_nin
      have hmem : a.pid ∈ rest.map Position.pid :=
        List.mem_map_of_mem Position.pid ha
      rw [hai, ← hbi] at hmem
      exact hmem
    · have he : List.eraseP (fun q => q.pid == i) (b :: rest)
          = b :: List.eraseP (fun q => q.pid == i) rest :=
        List.eraseP_cons_of_neg hb
      rw [he] at ha
      rcases List.mem_cons.mp ha with rfl | ha2
      · simpa using hb
      · obtain ⟨p, hpmem, hpi⟩ := hex
        rcases List.mem_cons.mp hpmem with rfl | hprest
        · exact absurd (by simpa using hpi) hb
        · exact ih hnd_rest ⟨p, hprest, hpi⟩ ha2

/-- A fresh engine ledger is well-formed. -/
theorem mkEngine_wf (capital : ℚ) : LedgerWF (mkEngine capital) := by
  refine ⟨?_, ?_, ?_, ?_⟩ <;> simp [mkEngine, LedgerWF]

/-- Opening a position preserves ledger well-formedness. -/
theorem engine_open_wf (st : EngineState) (market : Market) (price : ℚ)
    (tier : TierConfig) (ts : ℚ) (hwf : LedgerWF st) :
    LedgerWF (engine_open_position st market price tier ts) := by
  obtain ⟨h1, h2, h3, h4⟩ := hwf
  unfold engine_open_position
  dsimp only
  refine ⟨?_, ?_, ?_, ?_⟩
  · intro p hp
    rcases List.mem_append.mp hp with hold | hnew
    · exact Nat.lt_succ_of_lt (h1 p hold)
    · rw [List.mem_singleton.mp hnew]
      exact Nat.lt_succ_self _
  · intro p hp
    exact Nat.lt_succ_of_lt (h2 p hp)
  · rw [List.map_append]
    refine List.Nodup.append h3 (List.nodup_singleton _) ?_
    intro a hain hbin
    rw [List.mem_singleton.mp hbin] at hain
    obtain ⟨p, hp, hpid⟩ := List.mem_map.mp hain
    exact absurd (hpid ▸ h1 p hp) (lt_irrefl _)
  · intro p hp q hq
    rcases List.mem_append.mp hp with hold | hnew
    · exact h4 p hold q hq
    · rw [List.mem_singleton.mp hnew]
      exact fun hcon => absurd (hcon ▸ h2 q hq) (lt_irrefl _)

/-- Closing a position preserves ledger well-formedness — in
particular, the closed position leaves the open list, so no identity is
ever in both the open and the closed set. -/
theorem engine_close_wf (st : EngineState) (pid : ℕ) (price ts : ℚ)
    (reason : ExitReason) (taker : Bool) (hwf : LedgerWF st) :
    LedgerWF (engine_close_position st pid price ts reason taker) := by
  obtain ⟨h1, h2, h3, h4⟩ := hwf
  unfold engine_close_position
  cases hfind : engine_getPos st pid with
  | none => exact ⟨h1, h2, h3, h4⟩
  | some p =>
    unfold engine_getPos at hfind
    have hpmem : p ∈ st.portfolio.positions := List.mem_of_find?_eq_some hfind
    have hppid : p.pid = pid := by simpa using List.find?_some hfind
    dsimp only
    refine ⟨?_, ?_, ?_, ?_⟩
    · intro a ha
      exact h1 a ((List.eraseP_sublist _).subset ha)
    · intro a ha
      rcases List.mem_append.mp ha with hold | hnew
      · exact h2 a hold
      · rw [List.mem_singleton.mp hnew]
        exact h1 p hpmem
    · exact List.Nodup.sublist (List.Sublist.map _ (List.eraseP_sublist _)) h3
    · intro a ha q hq
      rcases List.mem_append.mp hq with hold | hnew
      · exact h4 a ((List.eraseP_sublist _).subset ha) q hold
      · rw [List.mem_singleton.mp hnew]
        intro hcon
        exact mem_eraseP_pid_ne st.portfolio.positions pid h3
          ⟨p, hpmem, hppid⟩ a ha (by rw [hcon]; exact hppid)

/-- Settling a position preserves ledger well-formedness. -/
theorem engine_settle_wf (st : EngineState) (pid : ℕ) (market : Market)
    (hwf : LedgerWF st) :
    LedgerWF (engine_settle_position st pid market) := by
  unfold engine_settle_position
  split <;> exact engine_close_wf _ _ _ _ _ _ hwf

/-- Claim C3: closing a position changes cash by exactly
`exitValue - fee` with `exitValue = shares × exit price` and
`fee = exitValue × (taker rate if taker else maker rate)`; and every
ledger operation — open, close, settle — preserves the invariant that
no position is a member of both the open set and the closed set. -/
theorem C3_ledger_invariant :
    (∀ st pid price ts reason taker p, engine_getPos st pid = some p →
      (engine_close_position st pid price ts reason taker).portfolio.cash
          - st.portfolio.cash
        = p.shares * price
          - p.shares * price
              * (if taker then TAKER_FEE_PCT else MAKER_FEE_PCT)) ∧
    (∀ capital, LedgerWF (mkEngine capital)) ∧
    (∀ st market price tier ts, LedgerWF st →
      LedgerWF (engine_open_position st market price tier ts)) ∧
    (∀ st pid price ts reason taker, LedgerWF st →
      LedgerWF (engine_close_position st pid price ts reason taker)) ∧
    (∀ st pid market, LedgerWF st →
      LedgerWF (engine_settle_position st pid market)) := by
  refine ⟨?_, mkEngine_wf, engine_open_wf, engine_close_wf, engine_settle_wf⟩
  intro st pid price ts reason taker p hfind
  unfold engine_close_position
  rw [hfind]
  dsimp only
  ring

/-- Witness for C3: open one position on a $100 engine, then close it
by take-profit; the cash delta matches and every intermediate ledger is
well-formed. -/
theorem C3_witness :
    (engine_close_position
          (engine_open_position (mkEngine 100) sample_market (95/100) TIER_A 0)
          0 (99/100) 2 ExitReason.take_profit false).portfolio.cash
        - (engine_open_position (mkEngine 100) sample_market (95/100) TIER_A 0
            ).portfolio.cash
      = sample_position.shares * (99/100)
        - sample_position.shares * (99/100)
            * (if false then TAKER_FEE_PCT else MAKER_FEE_PCT) ∧
    LedgerWF (mkEngine 100) ∧
    LedgerWF (engine_open_position (mkEngine 100) sample_market (95/100)
      TIER_A 0) ∧
    LedgerWF (engine_close_position
      (engine_open_position (mkEngine 100) sample_market (95/100) TIER_A 0)
      0 (99/100) 2 ExitReason.take_profit false) ∧
    LedgerWF (engine_settle_position
      (engine_open_position (mkEngine 100) sample_market (95/100) TIER_A 0)
      0 sample_market) := by
  have hwf0 := C3_ledger_invariant.2.1 100
  have hwf1 := C3_ledger_invariant.2.2.1 (mkEngine 100) sample_market
    (95/100) TIER_A 0 hwf0
  exact ⟨C3_ledger_invariant.1 _ 0 (99/100) 2 ExitReason.take_profit false
      sample_position (by decide!),
    hwf0, hwf1,
    C3_ledger_invariant.2.2.2.1 _ 0 (99/100) 2 ExitReason.take_profit false
      hwf1,
    C3_ledger_invariant.2.2.2.2 _ 0 sample_market hwf1⟩

/-- Counterexample to C9 as stated: on the end-to-end scenario the
engine's single trade is entered at t0, not t1 — with hourly ticks
(t1 six hours and t2 five hours before resolution, hence t0 seven
hours) the t0 price 0.95 already classifies and entry happens
immediately; and under the alternative reading where t0 lies beyond
the 12-hour bound, the t1 entry is priced 0.971 = 0.97 + 0.001, not
0.951.  Either way no trade is entered at t1 at price ≈ 0.951. -/
theorem C9_counterexample :
    (scan_market (mkEngine 10000) c9_market c9_prices).all_trades.map
        (fun p => p.entry_time) = [0] ∧
    ((scan_market (mkEngine 10000) c9_market c9_prices).all_trades.any
        (fun p => p.entry_time == 1)) = false ∧
    (scan_market (mkEngine 10000) c9_market
        [⟨-6, 95/100⟩, ⟨1, 97/100⟩, ⟨2, 992/1000⟩]).all_trades.map
        (fun p => (p.entry_time, p.entry_price)) = [(1, 971/1000)] := by
  decide!

/-- Claim C9 as amended: on the end-to-end scenario (capital $10,000,
tier A, prices 0.95 at t0 = 7h-to-resolution, 0.97 at t1 = 6h, 0.992
at t2 = 5h, resolution "Yes") the engine enters at t0 — not t1 — at
entry price 0.951 = 0.95 + 0.001 tick improvement, exits by
take-profit at t2 at exactly 0.99, realizes strictly positive PnL and
pays zero total fees. -/
theorem C9_amended_end_to_end :
    (scan_market (mkEngine 10000) c9_market c9_prices).all_trades
      = [c9_trade] ∧
    c9_trade.entry_time = 0 ∧
    c9_trade.entry_price = 951/1000 ∧
    c9_trade.exit_time = some 2 ∧
    c9_trade.exit_price = some (99/100) ∧
    c9_trade.exit_reason = some ExitReason.take_profit ∧
    c9_trade.fees_paid = 0 ∧
    0 < c9_trade.pnl := by
  decide!

/-- A tier returned by the classification scan is a member of the
scanned list. -/
theorem classify_tier_in_mem (price h : ℚ) (tiers : List TierConfig)
    (t : TierConfig) (hc : classify_tier_in price h tiers = some t) :
    t ∈ tiers := by
  induction tiers with
  | nil => simp [classify_tier_in] at hc
  | cons tier rest ih =>
    unfold classify_tier_in at hc
    split_ifs at hc with hm
    · exact (Option.some.injEq _ _ ▸ hc) ▸ List.mem_cons_self tier rest
    · exact List.mem_cons_of_mem tier (ih hc)

/-- A tier approved by entry eligibility is a configured tier. -/
theorem check_entry_eligible_mem (market : Market) (price h : ℚ)
    (ops : List Position) (cash : ℚ) (t : TierConfig)
    (he : check_entry_eligible market price h ops cash = some t) :
    t ∈ TIERS := by
  unfold check_entry_eligible at he
  cases hc : classify_tier price h with
  | none => rw [hc] at he; exact absurd he (by simp)
  | some tier =>
    rw [hc] at he
    dsimp only at he
    split_ifs at he with h1 h2 h3 h4 h5
    all_goals try simp at he
    rw [← he]
    exact classify_tier_in_mem price h TIERS tier hc

/-- Opening a position at an observed price of the series with a
configured tier preserves the fee/pricing invariant. -/
theorem engine_open_fee (S : List PricePoint) (st : EngineState)
    (market : Market) (pp : PricePoint) (tier : TierConfig) (ts : ℚ)
    (hts : ts = pp.timestamp) (hmem : pp ∈ S) (htier : tier ∈ TIERS)
    (hinv : FeeInv S st) :
    FeeInv S (engine_open_position st market pp.price tier ts) := by
  obtain ⟨ho, hc⟩ := hinv
  unfold engine_open_position
  dsimp only
  refine ⟨?_, hc⟩
  intro p hp
  rcases List.mem_append.mp hp with hold | hnew
  · exact ho p hold
  · rw [List.mem_singleton.mp hnew]
    refine ⟨⟨tier, htier, rfl, pp, hmem, rfl, hts⟩, ?_⟩
    show tier.position_size_usd * MAKER_FEE_PCT = 0
    simp [MAKER_FEE_PCT]

/-- Updating a soft-stop trigger preserves the fee/pricing invariant. -/
theorem engine_set_trigger_fee (S : List PricePoint) (st : EngineState)
    (pid : ℕ) (trig : Option ℚ) (hinv : FeeInv S st) :
    FeeInv S (engine_set_trigger st pid trig) := by
  obtain ⟨ho, hc⟩ := hinv
  unfold engine_set_trigger
  dsimp only
  refine ⟨?_, hc⟩
  intro p hp
  obtain ⟨q, hq, hfq⟩ := List.mem_map.mp hp
  have hz := ho q hq
  rw [← hfq]
  by_cases hqp : (q.pid == pid) = true
  · rw [if_pos hqp]
    exact hz
  · rw [if_neg hqp]
    exact hz

/-- Closing with a hard-stop-style taker fee on a slippage-adjusted
observed price, or with any other reason fee-free, preserves the
fee/pricing invariant. -/
theorem engine_close_fee (S : List PricePoint) (st : EngineState)
    (pid : ℕ) (price ts : ℚ) (reason : ExitReason) (taker : Bool)
    (hr : reason = ExitReason.hard_stop → taker = true ∧
      ∃ pp ∈ S, price = max (pp.price - STOP_LOSS_SLIPPAGE) (1/100))
    (hnr : reason ≠ ExitReason.hard_stop → taker = false)
    (hinv : FeeInv S st) :
    FeeInv S (engine_close_position st pid price ts reason taker) := by
  obtain ⟨ho, hc⟩ := hinv
  unfold engine_close_position
  cases hfind : engine_getPos st pid with
  | none => exact ⟨ho, hc⟩
  | some p =>
    unfold engine_getPos at hfind
    have hpmem : p ∈ st.portfolio.positions :=
      List.mem_of_find?_eq_some hfind
    obtain ⟨hpo, hpf⟩ := ho p hpmem
    dsimp only
    constructor
    · intro a ha
      exact ho a ((List.eraseP_sublist _).subset ha)
    · intro a ha
      rcases List.mem_append.mp ha with hold | hnew
      · exact hc a hold
      · rw [List.mem_singleton.mp hnew]
        refine ⟨hpo, ?_⟩
        by_cases hrz : reason = ExitReason.hard_stop
        · obtain ⟨htaker, pp, hppmem, hprice⟩ := hr hrz
          subst hrz
          subst htaker
          unfold closedFeeOk
          dsimp only
          refine ⟨?_, pp, hppmem, hprice⟩
          rw [hpf, zero_add]
          rfl
        · have htf := hnr hrz
          subst htf
          cases reason with
          | hard_stop => exact absurd rfl hrz
          | take_profit =>
            unfold closedFeeOk
            dsimp only
            show p.fees_paid + p.shares * price * MAKER_FEE_PCT = 0
            rw [hpf, MAKER_FEE_PCT, mul_zero, zero_add]
          | soft_stop =>
            unfold closedFeeOk
            dsimp only
            show p.fees_paid + p.shares * price * MAKER_FEE_PCT = 0
            rw [hpf, MAKER_FEE_PCT, mul_zero, zero_add]
          | settled_win =>
            unfold closedFeeOk
            dsimp only
            show p.fees_paid + p.shares * price * MAKER_FEE_PCT = 0
            rw [hpf, MAKER_FEE_PCT, mul_zero, zero_add]
          | settled_loss =>
            unfold closedFeeOk
            dsimp only
            show p.fees_paid + p.shares * price * MAKER_FEE_PCT = 0
            rw [hpf, MAKER_FEE_PCT, mul_zero, zero_add]

/-- Settlement closes fee-free, preserving the fee/pricing invariant. -/
theorem engine_settle_fee (S : List PricePoint) (st : EngineState)
    (pid : ℕ) (market : Market) (hinv : FeeInv S st) :
    FeeInv S (engine_settle_position st pid market) := by
  unfold engine_settle_position
  split
  · exact engine_close_fee S st pid 1 _ ExitReason.settled_win false
      (fun h => absurd h (by decide)) (fun _ => rfl) hinv
  · exact engine_close_fee S st pid 0 _ ExitReason.settled_loss false
      (fun h => absurd h (by decide)) (fun _ => rfl) hinv

/-- An exit produced by the per-tick exit evaluation is either a
hard-stop at the slippage-adjusted observed price or a take-profit at
the threshold price. -/
theorem exit_eval_exited (tier : TierConfig) (trig : Option ℚ)
    (price0 : ℚ) (np : Option ℚ) (ts : ℚ) (reason : ExitReason)
    (price : ℚ)
    (hres : exit_eval tier trig price0 np ts
      = ExitTickResult.exited reason price) :
    (reason = ExitReason.hard_stop
      ∧ price = max (price0 - STOP_LOSS_SLIPPAGE) (1/100)) ∨
    (reason = ExitReason.take_profit ∧ price = TAKE_PROFIT_PRICE) := by
  unfold exit_eval at hres
  dsimp only at hres
  split_ifs at hres with h1 h2
  · left
    injection hres with ha hb
    exact ⟨ha.symm, by rw [← hb]; rfl⟩
  · right
    injection hres with ha hb
    exact ⟨ha.symm, hb.symm⟩

/-- The exit phase of a scan tick preserves the fee/pricing invariant. -/
theorem scan_tick_exit_fee (S : List PricePoint) (st : EngineState)
    (track : Option (ℕ × TierConfig)) (pp : PricePoint) (np : Option ℚ)
    (hppS : pp ∈ S) (hinv : FeeInv S st) :
    FeeInv S (scan_tick_exit st track pp np).1 := by
  unfold scan_tick_exit
  rcases track with _ | ⟨pid, tier⟩
  · exact hinv
  · dsimp only
    cases hgp : engine_getPos st pid with
    | none => exact hinv
    | some p =>
      dsimp only
      by_cases hop : p.is_open = true
      · rw [if_pos hop]
        cases hres : exit_eval tier p.soft_stop_triggered_at pp.price np
            pp.timestamp with
        | hold trig => exact engine_set_trigger_fee S st pid trig hinv
        | exited reason price =>
          dsimp only
          refine engine_close_fee S st pid price pp.timestamp reason
            (reason == ExitReason.hard_stop) ?_ ?_ hinv
          · intro hrz
            refine ⟨by rw [hrz]; rfl, ?_⟩
            rcases exit_eval_exited tier p.soft_stop_triggered_at pp.price
              np pp.timestamp reason price hres with ⟨_, hpr⟩ | ⟨htp, _⟩
            · exact ⟨pp, hppS, hpr⟩
            · rw [hrz] at htp
              exact absurd htp.symm (by decide)
          · intro hrz
            exact beq_eq_false_iff_ne.mpr hrz
      · rw [if_neg hop]
        exact hinv

/-- The entry phase of a scan tick preserves the fee/pricing
invariant. -/
theorem scan_tick_entry_fee (S : List PricePoint) (market : Market)
    (hours : ℚ) (st : EngineState) (track : Option (ℕ × TierConfig))
    (pp : PricePoint) (hppS : pp ∈ S) (hinv : FeeInv S st) :
    FeeInv S (scan_tick_entry market hours st track pp).1 := by
  unfold scan_tick_entry
  cases he : check_entry_eligible market pp.price hours
      st.portfolio.open_positions st.portfolio.cash with
  | none => exact hinv
  | some ctier =>
    dsimp only
    exact engine_open_fee S st market pp ctier pp.timestamp rfl hppS
      (check_entry_eligible_mem _ _ _ _ _ _ he) hinv

/-- One scan tick preserves the fee/pricing invariant. -/
theorem scan_tick_fee (S : List PricePoint) (market : Market) (res : ℚ)
    (st : EngineState) (track : Option (ℕ × TierConfig))
    (pp : PricePoint) (np : Option ℚ) (hppS : pp ∈ S)
    (hinv : FeeInv S st) :
    FeeInv S (scan_tick market res st track pp np).1 := by
  unfold scan_tick
  dsimp only
  by_cases hh : res - pp.timestamp < 0
  · rw [if_pos hh]
    exact hinv
  · rw [if_neg hh]
    by_cases hd : (scan_tick_exit st track pp np).2.2 = true
    · rw [if_pos hd]
      exact scan_tick_entry_fee S market (res - pp.timestamp) _ _ pp hppS
        (scan_tick_exit_fee S st track pp np hppS hinv)
    · rw [if_neg hd]
      exact scan_tick_exit_fee S st track pp np hppS hinv

/-- The scan loop preserves the fee/pricing invariant. -/
theorem scan_loop_fee (S : List PricePoint) (market : Market) (res : ℚ) :
    ∀ (l : List PricePoint) (st : EngineState)
      (track : Option (ℕ × TierConfig)),
      (∀ x ∈ l, x ∈ S) → FeeInv S st →
      FeeInv S (scan_loop market res st track l).1 := by
  intro l
  induction l with
  | nil => intro st track _ hinv; exact hinv
  | cons pp rest ih =>
    intro st track hsub hinv
    simp only [scan_loop]
    exact ih _ _ (fun x hx => hsub x (List.mem_cons_of_mem pp hx))
      (scan_tick_fee S market res st track pp _
        (hsub pp (List.mem_cons_self pp rest)) hinv)

/-- A whole market scan from a fresh engine satisfies the fee/pricing
invariant with respect to its own price series. -/
theorem scan_market_fee (capital : ℚ) (market : Market)
    (prices : List PricePoint) :
    FeeInv prices (scan_market (mkEngine capital) market prices) := by
  have hinv0 : FeeInv prices (mkEngine capital) := by
    constructor <;> intro p hp <;> simp [mkEngine] at hp
  unfold scan_market
  cases market.resolved_at with
  | none => exact hinv0
  | some res =>
    dsimp only
    by_cases hemp : prices.isEmpty = true
    · rw [if_pos hemp]
      exact hinv0
    · rw [if_neg hemp]
      have hloop := scan_loop_fee prices market res prices (mkEngine capital)
        none (fun x hx => hx) hinv0
      cases htr : (scan_loop market res (mkEngine capital) none prices).2 with
      | none => exact hloop
      | some pt =>
        rcases pt with ⟨pid, tier⟩
        dsimp only
        cases hgp : engine_getPos
            (scan_loop market res (mkEngine capital) none prices).1 pid with
        | none => exact hloop
        | some p =>
          dsimp only
          by_cases hop : p.is_open = true
          · rw [if_pos hop]
            exact engine_settle_fee prices _ pid market hloop
          · rw [if_neg hop]
            exact hloop

/-- Claim C8: every position the backtest engine opens is priced
`min(observed + tick, tier upper bound)` with zero entry fee; every
take-profit and settlement close carries zero total fees; exactly the
hard-stop closes carry the taker fee on the exit value, at the
slippage-adjusted exit price `max(observed - 0.01, 0.01)`. -/
theorem C8_fee_and_entry_invariant (capital : ℚ) (market : Market)
    (prices : List PricePoint) :
    (∀ p ∈ (scan_market (mkEngine capital) market prices).all_trades,
      entryPriceOk prices p ∧ closedFeeOk prices p) ∧
    (∀ p ∈ (scan_market (mkEngine capital) market prices
        ).portfolio.positions,
      entryPriceOk prices p ∧ p.fees_paid = 0) := by
  have h := scan_market_fee capital market prices
  exact ⟨h.2, h.1⟩

/-- Witness for C8 at the end-to-end scenario: its single trade follows
the entry-pricing rule and the fee discipline. -/
theorem C8_witness :
    c9_trade ∈ (scan_market (mkEngine 10000) c9_market c9_prices).all_trades
      ∧ entryPriceOk c9_prices c9_trade ∧ closedFeeOk c9_prices c9_trade :=
  ⟨by decide!,
    (C8_fee_and_entry_invariant 10000 c9_market c9_prices).1 c9_trade
      (by decide!)⟩

/-- `EqObs` is reflexive. -/
theorem eqobs_refl (a : EngineState) : EqObs a a :=
  ⟨rfl, rfl, rfl, rfl, rfl, rfl⟩

/-- `EqObs` is transitive. -/
theorem eqobs_trans {a b c : EngineState} (h1 : EqObs a b)
    (h2 : EqObs b c) : EqObs a c := by
  obtain ⟨a1, a2, a3, a4, a5, a6⟩ := h1
  obtain ⟨b1, b2, b3, b4, b5, b6⟩ := h2
  exact ⟨a1.trans b1, a2.trans b2, a3.trans b3, a4.trans b4,
    a5.trans b5, a6.trans b6⟩

/-- Observationally equal states dereference identically. -/
theorem getPos_eqobs {a b : EngineState} (h : EqObs a b) (pid : ℕ) :
    engine_getPos a pid = engine_getPos b pid := by
  unfold engine_getPos
  rw [h.2.2.1]

/-- Trigger updates respect observational equality. -/
theorem set_trigger_eqobs {a b : EngineState} (h : EqObs a b) (pid : ℕ)
    (trig : Option ℚ) :
    EqObs (engine_set_trigger a pid trig) (engine_set_trigger b pid trig) := by
  obtain ⟨h1, h2, h3, h4, h5, h6⟩ := h
  exact ⟨h1, h2, by unfold engine_set_trigger; dsimp only; rw [h3],
    h4, h5, h6⟩

/-- Opening a position respects observational equality. -/
theorem open_eqobs {a b : EngineState} (h : EqObs a b) (market : Market)
    (price : ℚ) (tier : TierConfig) (ts : ℚ) :
    EqObs (engine_open_position a market price tier ts)
      (engine_open_position b market price tier ts) := by
  obtain ⟨h1, h2, h3, h4, h5, h6⟩ := h
  unfold engine_open_position
  exact ⟨h1, by dsimp only; rw [h2], by dsimp only; rw [h3, h6],
    h4, h5, by dsimp only; rw [h6]⟩

/-- Closing a position respects observational equality. -/
theorem close_eqobs {a b : EngineState} (h : EqObs a b) (pid : ℕ)
    (price ts : ℚ) (reason : ExitReason) (taker : Bool) :
    EqObs (engine_close_position a pid price ts reason taker)
      (engine_close_position b pid price ts reason taker) := by
  obtain ⟨h1, h2, h3, h4, h5, h6⟩ := h
  unfold engine_close_position
  rw [getPos_eqobs ⟨h1, h2, h3, h4, h5, h6⟩ pid]
  cases engine_getPos b pid with
  | none => exact ⟨h1, h2, h3, h4, h5, h6⟩
  | some p =>
    dsimp only
    refine ⟨h1, by rw [h2], by rw [h3], ?_, ?_, h6⟩
    · rw [List.map_append, List.map_append, h4]
    · rw [List.map_append, List.map_append, h5]

/-- Settling respects observational equality. -/
theorem settle_eqobs {a b : EngineState} (h : EqObs a b) (pid : ℕ)
    (market : Market) :
    EqObs (engine_settle_position a pid market)
      (engine_settle_position b pid market) := by
  unfold engine_settle_position
  split
  · exact close_eqobs h pid 1 _ ExitReason.settled_win false
  · exact close_eqobs h pid 0 _ ExitReason.settled_loss false

/-- Trigger updates preserve the identity map of the open list. -/
theorem set_trigger_pids (st : EngineState) (pid : ℕ) (trig : Option ℚ) :
    (engine_set_trigger st pid trig).portfolio.positions.map Position.pid
      = st.portfolio.positions.map Position.pid := by
  unfold engine_set_trigger
  dsimp only
  rw [List.map_map]
  apply List.map_congr_left
  intro q _
  by_cases hq : (q.pid == pid) = true
  · rw [Function.comp_apply, if_pos hq]
  · rw [Function.comp_apply, if_neg hq]

/-- Trigger updates preserve position well-formedness. -/
theorem set_trigger_poswf (st : EngineState) (pid : ℕ) (trig : Option ℚ)
    (hwf : PosWF st) : PosWF (engine_set_trigger st pid trig) := by
  obtain ⟨hnd, hlt⟩ := hwf
  constructor
  · rw [set_trigger_pids]
    exact hnd
  · intro p hp
    unfold engine_set_trigger at hp
    dsimp only at hp
    obtain ⟨q, hq, hfq⟩ := List.mem_map.mp hp
    have := hlt q hq
    by_cases hqp : (q.pid == pid) = true
    · rw [if_pos hqp] at hfq
      rw [← hfq]
      exact this
    · rw [if_neg hqp] at hfq
      rw [← hfq]
      exact this

/-- Closing preserves position well-formedness. -/
theorem close_poswf (st : EngineState) (pid : ℕ) (price ts : ℚ)
    (reason : ExitReason) (taker : Bool) (hwf : PosWF st) :
    PosWF (engine_close_position st pid price ts reason taker) := by
  obtain ⟨hnd, hlt⟩ := hwf
  unfold engine_close_position
  cases engine_getPos st pid with
  | none => exact ⟨hnd, hlt⟩
  | some p =>
    dsimp only
    constructor
    · exact List.Nodup.sublist (List.Sublist.map _ (List.eraseP_sublist _)) hnd
    · intro a ha
      exact hlt a ((List.eraseP_sublist _).subset ha)

/-- Opening preserves position well-formedness. -/
theorem open_poswf (st : EngineState) (market : Market) (price : ℚ)
    (tier : TierConfig) (ts : ℚ) (hwf : PosWF st) :
    PosWF (engine_open_position st market price tier ts) := by
  obtain ⟨hnd, hlt⟩ := hwf
  unfold engine_open_position
  dsimp only
  constructor
  · rw [List.map_append]
    refine List.Nodup.append hnd (List.nodup_singleton _) ?_
    intro x hx hx2
    rw [List.mem_singleton.mp hx2] at hx
    obtain ⟨q, hq, hqid⟩ := List.mem_map.mp hx
    exact absurd (hqid ▸ hlt q hq) (lt_irrefl _)
  · intro p hp
    rcases List.mem_append.mp hp with hold | hnew
    · exact Nat.lt_succ_of_lt (hlt p hold)
    · rw [List.mem_singleton.mp hnew]
      exact Nat.lt_succ_self _

/-- Settling preserves position well-formedness. -/
theorem settle_poswf (st : EngineState) (pid : ℕ) (market : Market)
    (hwf : PosWF st) : PosWF (engine_settle_position st pid market) := by
  unfold engine_settle_position
  split <;> exact close_poswf _ _ _ _ _ _ hwf

/-- A trigger update on an identity absent from a list is a no-op. -/
theorem map_set_trigger_id (l : List Position) (pid : ℕ) (trig : Option ℚ)
    (h : ∀ x ∈ l, ¬ (x.pid == pid) = true) :
    l.map (fun q => if q.pid == pid
      then { q with soft_stop_triggered_at := trig } else q) = l := by
  induction l with
  | nil => rfl
  | cons b rest ih =>
    rw [List.map_cons, if_neg (h b (List.mem_cons_self b rest)),
      ih (fun x hx => h x (List.mem_cons_of_mem b hx))]

/-- Dereferencing an identity after a trigger update on that identity
yields the trigger-updated object. -/
theorem find?_set_trigger (l : List Position) (pid : ℕ) (trig : Option ℚ) :
    (l.map (fun q => if q.pid == pid
        then { q with soft_stop_triggered_at := trig } else q)).find?
        (fun q => q.pid == pid)
      = (l.find? (fun q => q.pid == pid)).map
          (fun q => { q with soft_stop_triggered_at := trig }) := by
  induction l with
  | nil => rfl
  | cons b rest ih =>
    rw [List.map_cons]
    by_cases hb : (b.pid == pid) = true
    · rw [if_pos hb]
      have h1 : List.find? (fun q => q.pid == pid)
          ({ b with soft_stop_triggered_at := trig } ::
            rest.map (fun q => if q.pid == pid
              then { q with soft_stop_triggered_at := trig } else q))
          = some { b with soft_stop_triggered_at := trig } :=
        List.find?_cons_of_pos _ hb
      have h2 : List.find? (fun q => q.pid == pid) (b :: rest) = some b :=
        List.find?_cons_of_pos _ hb
      rw [h1, h2]
      rfl
    · rw [if_neg hb]
      have h1 : List.find? (fun q => q.pid == pid)
          (b :: rest.map (fun q => if q.pid == pid
            then { q with soft_stop_triggered_at := trig } else q))
          = List.find? (fun q => q.pid == pid)
              (rest.map (fun q => if q.pid == pid
                then { q with soft_stop_triggered_at := trig } else q)) :=
        List.find?_cons_of_neg _ hb
      have h2 : List.find? (fun q => q.pid == pid) (b :: rest)
          = List.find? (fun q => q.pid == pid) rest :=
        List.find?_cons_of_neg _ hb
      rw [h1, h2, ih]

/-- With distinct identities, erasing identity `pid` after a trigger
update on `pid` equals erasing it without the update. -/
theorem eraseP_set_trigger (l : List Position) (pid : ℕ) (trig : Option ℚ)
    (hnd : (l.map Position.pid).Nodup) :
    (l.map (fun q => if q.pid == pid
        then { q with soft_stop_triggered_at := trig } else q)).eraseP
        (fun q => q.pid == pid)
      = l.eraseP (fun q => q.pid == pid) := by
  induction l with
  | nil => rfl
  | cons b rest ih =>
    rw [List.map_cons, List.nodup_cons] at hnd
    obtain ⟨hb_nin, hnd_rest⟩ := hnd
    rw [List.map_cons]
    by_cases hb : (b.pid == pid) = true
    · have hbpid : b.pid = pid := by simpa using hb
      have e1 : List.eraseP (fun q => q.pid == pid)
          ({ b with soft_stop_triggered_at := trig } ::
            rest.map (fun q => if q.pid == pid
              then { q with soft_stop_triggered_at := trig } else q))
          = rest.map (fun q => if q.pid == pid
              then { q with soft_stop_triggered_at := trig } else q) :=
        List.eraseP_cons_of_pos hb
      have e2 : List.eraseP (fun q => q.pid == pid) (b :: rest) = rest :=
        List.eraseP_cons_of_pos hb
      rw [if_pos hb, e1, e2]
      apply map_set_trigger_id
      intro x hx hcon
      apply hb_nin
      have : x.pid ∈ rest.map Position.pid := List.mem_map_of_mem _ hx
      rw [(by simpa using hcon : x.pid = pid), ← hbpid] at this
      exact this
    · have e1 : List.eraseP (fun q => q.pid == pid)
          (b :: rest.map (fun q => if q.pid == pid
            then { q with soft_stop_triggered_at := trig } else q))
          = b :: (rest.map (fun q => if q.pid == pid
              then { q with soft_stop_triggered_at := trig } else q)).eraseP
              (fun q => q.pid == pid) :=
        List.eraseP_cons_of_neg hb
      have e2 : List.eraseP (fun q => q.pid == pid) (b :: rest)
          = b :: rest.eraseP (fun q => q.pid == pid) :=
        List.eraseP_cons_of_neg hb
      rw [if_neg hb, e1, e2, ih hnd_rest]

/-- Closing an identity commutes, up to observables, with a trigger
update on that identity: the in-place trigger mutation the legacy
engine performs before a same-tick close is invisible in the trade
observables. -/
theorem close_after_set_trigger (st : EngineState) (pid : ℕ)
    (trig : Option ℚ) (price ts : ℚ) (reason : ExitReason) (taker : Bool)
    (hnd : (st.portfolio.positions.map Position.pid).Nodup) :
    EqObs
      (engine_close_position (engine_set_trigger st pid trig) pid price ts
        reason taker)
      (engine_close_position st pid price ts reason taker) := by
  unfold engine_close_position
  have hg : engine_getPos (engine_set_trigger st pid trig) pid
      = (engine_getPos st pid).map
          (fun q => { q with soft_stop_triggered_at := trig }) := by
    unfold engine_getPos engine_set_trigger
    dsimp only
    exact find?_set_trigger _ pid trig
  rw [hg]
  cases hf : engine_getPos st pid with
  | none =>
    dsimp only [Option.map_none']
    have hid : engine_set_trigger st pid trig = st := by
      unfold engine_set_trigger
      have : st.portfolio.positions.map (fun q => if q.pid == pid
          then { q with soft_stop_triggered_at := trig } else q)
          = st.portfolio.positions := by
        apply map_set_trigger_id
        intro x hx
        unfold engine_getPos at hf
        exact List.find?_eq_none.mp hf x hx
      rw [this]
    rw [hid]
    exact eqobs_refl st
  | some p =>
    dsimp only [Option.map_some']
    refine ⟨rfl, rfl, ?_, ?_, ?_, rfl⟩
    · show (st.portfolio.positions.map (fun q => if q.pid == pid
          then { q with soft_stop_triggered_at := trig } else q)).eraseP
          (fun q => q.pid == pid)
        = st.portfolio.positions.eraseP (fun q => q.pid == pid)
      exact eraseP_set_trigger _ pid trig hnd
    · rw [List.map_append, List.map_append]
      exact rfl
    · rw [List.map_append, List.map_append]
      exact rfl

/-- The inlined legacy entry checks decide exactly as the shared
`check_entry_eligible` despite their different check order. -/
theorem legacy_entry_eq (market : Market) (price hours : ℚ)
    (ops : List Position) (cash : ℚ) :
    legacy_entry_decision market price hours ops cash
      = check_entry_eligible market price hours ops cash := by
  unfold legacy_entry_decision check_entry_eligible
  cases hc : classify_tier price hours with
  | none => dsimp only; split_ifs <;> rfl
  | some ct => dsimp only; split_ifs <;> rfl

/-- The legacy exit phase (in-place `_check_hard_stop` followed by
`_check_take_profit`) is observationally the refactored engine's
`exit_eval` decision applied to the same state: a close matches a close
with the same reason, price and fee side, and a hold matches the same
trigger update. -/
theorem legacy_exit_phase_equiv (st : EngineState) (pid : ℕ)
    (tier : TierConfig) (p : Position) (pp : PricePoint) (np : Option ℚ)
    (hnd : (st.portfolio.positions.map Position.pid).Nodup) :
    EqObs (legacy_exit_phase st pid tier p pp np).1
      (match exit_eval tier p.soft_stop_triggered_at pp.price np
          pp.timestamp with
        | ExitTickResult.exited reason price =>
          engine_close_position st pid price pp.timestamp reason
            (reason == ExitReason.hard_stop)
        | ExitTickResult.hold trig => engine_set_trigger st pid trig) ∧
    (legacy_exit_phase st pid tier p pp np).2
      = (match exit_eval tier p.soft_stop_triggered_at pp.price np
          pp.timestamp with
        | ExitTickResult.exited _ _ => true
        | ExitTickResult.hold _ => false) := by
  by_cases hge : tier.hard_stop_loss ≤ pp.price
  · have hcs : check_hard_stop pp.price tier p.soft_stop_triggered_at.isSome
        np = (false, false) := by
      unfold check_hard_stop
      rw [if_pos hge]
    by_cases htp : check_take_profit pp.price = true
    · have hee : exit_eval tier p.soft_stop_triggered_at pp.price np
          pp.timestamp
          = ExitTickResult.exited ExitReason.take_profit TAKE_PROFIT_PRICE := by
        unfold exit_eval
        rw [hcs]
        simp [htp]
      rw [hee]
      unfold legacy_exit_phase legacy_tp_check
      rw [if_pos hge, if_pos htp]
      exact ⟨close_after_set_trigger st pid none TAKE_PROFIT_PRICE
        pp.timestamp ExitReason.take_profit false hnd, rfl⟩
    · have hee : exit_eval tier p.soft_stop_triggered_at pp.price np
          pp.timestamp = ExitTickResult.hold none := by
        unfold exit_eval
        rw [hcs]
        simp [htp]
      rw [hee]
      unfold legacy_exit_phase legacy_tp_check
      rw [if_pos hge, if_neg htp]
      exact ⟨eqobs_refl _, rfl⟩
  · by_cases hsoft : p.soft_stop_triggered_at = none
    · have hb : (p.soft_stop_triggered_at == none) = true :=
        beq_iff_eq.mpr hsoft
      have hcs : check_hard_stop pp.price tier
          p.soft_stop_triggered_at.isSome np = (false, true) := by
        unfold check_hard_stop
        rw [if_neg hge, hsoft]
        rfl
      by_cases htp : check_take_profit pp.price = true
      · have hee : exit_eval tier p.soft_stop_triggered_at pp.price np
            pp.timestamp
            = ExitTickResult.exited ExitReason.take_profit
                TAKE_PROFIT_PRICE := by
          unfold exit_eval
          rw [hcs]
          simp [htp]
        rw [hee]
        unfold legacy_exit_phase legacy_tp_check
        rw [if_neg hge, if_pos hb, if_pos htp]
        exact ⟨close_after_set_trigger st pid (some pp.timestamp)
          TAKE_PROFIT_PRICE pp.timestamp ExitReason.take_profit false hnd,
          rfl⟩
      · have hee : exit_eval tier p.soft_stop_triggered_at pp.price np
            pp.timestamp = ExitTickResult.hold (some pp.timestamp) := by
          unfold exit_eval
          rw [hcs]
          simp [htp]
        rw [hee]
        unfold legacy_exit_phase legacy_tp_check
        rw [if_neg hge, if_pos hb, if_neg htp]
        exact ⟨eqobs_refl _, rfl⟩
    · have hb : ¬ (p.soft_stop_triggered_at == none) = true := by
        rw [beq_eq_false_iff_ne.mpr hsoft]
        simp
      have hissome : p.soft_stop_triggered_at.isSome = true :=
        Option.ne_none_iff_isSome.mp hsoft
      cases np with
      | some v =>
        by_cases hreb : tier.hard_stop_loss + STOP_LOSS_REBOUND_MARGIN ≤ v
        · have hcs : check_hard_stop pp.price tier
              p.soft_stop_triggered_at.isSome (some v) = (false, false) := by
            unfold check_hard_stop
            rw [if_neg hge, hissome]
            dsimp only
            rw [if_pos hreb]
            rfl
          by_cases htp : check_take_profit pp.price = true
          · have hee : exit_eval tier p.soft_stop_triggered_at pp.price
                (some v) pp.timestamp
                = ExitTickResult.exited ExitReason.take_profit
                    TAKE_PROFIT_PRICE := by
              unfold exit_eval
              rw [hcs]
              simp [htp]
            rw [hee]
            unfold legacy_exit_phase legacy_tp_check
            rw [if_neg hge, if_neg hb]
            dsimp only
            rw [if_pos hreb, if_pos htp]
            exact ⟨close_after_set_trigger st pid none TAKE_PROFIT_PRICE
              pp.timestamp ExitReason.take_profit false hnd, rfl⟩
          · have hee : exit_eval tier p.soft_stop_triggered_at pp.price
                (some v) pp.timestamp = ExitTickResult.hold none := by
              unfold exit_eval
              rw [hcs]
              simp [htp]
            rw [hee]
            unfold legacy_exit_phase legacy_tp_check
            rw [if_neg hge, if_neg hb]
            dsimp only
            rw [if_pos hreb, if_neg htp]
            exact ⟨eqobs_refl _, rfl⟩
        · have hee : exit_eval tier p.soft_stop_triggered_at pp.price
              (some v) pp.timestamp
              = ExitTickResult.exited ExitReason.hard_stop
                  (compute_stop_exit_price pp.price) := by
            unfold exit_eval check_hard_stop
            rw [if_neg hge, hissome]
            dsimp only
            rw [if_neg hreb]
            rfl
          rw [hee]
          unfold legacy_exit_phase
          rw [if_neg hge, if_neg hb]
          dsimp only
          rw [if_neg hreb]
          exact ⟨eqobs_refl _, rfl⟩
      | none =>
        have hee : exit_eval tier p.soft_stop_triggered_at pp.price none
            pp.timestamp
            = ExitTickResult.exited ExitReason.hard_stop
                (compute_stop_exit_price pp.price) := by
          unfold exit_eval check_hard_stop
          rw [if_neg hge, hissome]
          rfl
        rw [hee]
        unfold legacy_exit_phase
        rw [if_neg hge, if_neg hb]
        exact ⟨eqobs_refl _, rfl⟩

/-- The two entry phases decide identically and preserve observational
equality and well-formedness. -/
theorem entry_equiv (market : Market) (hours : ℚ) (a b : EngineState)
    (track : Option (ℕ × TierConfig)) (pp : PricePoint) (h : EqObs a b)
    (hwf : PosWF b) :
    EqObs (legacy_scan_tick_entry market hours a track pp).1
      (scan_tick_entry market hours b track pp).1 ∧
    (legacy_scan_tick_entry market hours a track pp).2
      = (scan_tick_entry market hours b track pp).2 ∧
    PosWF (scan_tick_entry market hours b track pp).1 := by
  unfold legacy_scan_tick_entry scan_tick_entry
  have hops : a.portfolio.open_positions = b.portfolio.open_positions := by
    unfold Portfolio.open_positions
    rw [h.2.2.1]
  rw [legacy_entry_eq, hops, h.2.1]
  cases he : check_entry_eligible market pp.price hours
      b.portfolio.open_positions b.portfolio.cash with
  | none => exact ⟨h, rfl, hwf⟩
  | some ctier =>
    dsimp only
    exact ⟨open_eqobs h market pp.price ctier pp.timestamp,
      by rw [h.2.2.2.2.2],
      open_poswf b market pp.price ctier pp.timestamp hwf⟩

/-- The two exit phases are observationally equivalent: same hold/close
decision, same track, observationally equal states. -/
theorem tick_exit_equiv (a b : EngineState)
    (track : Option (ℕ × TierConfig)) (pp : PricePoint) (np : Option ℚ)
    (hwf : PosWF b) (h : EqObs a b) :
    EqObs (legacy_scan_tick_exit a track pp np).1
      (scan_tick_exit b track pp np).1 ∧
    (legacy_scan_tick_exit a track pp np).2.1
      = (scan_tick_exit b track pp np).2.1 ∧
    (legacy_scan_tick_exit a track pp np).2.2
      = (scan_tick_exit b track pp np).2.2 ∧
    PosWF (scan_tick_exit b track pp np).1 := by
  unfold legacy_scan_tick_exit scan_tick_exit
  rcases track with _ | ⟨pid, tier⟩
  · exact ⟨h, rfl, rfl, hwf⟩
  · dsimp only
    rw [getPos_eqobs h pid]
    cases hgp : engine_getPos b pid with
    | none => exact ⟨h, rfl, rfl, hwf⟩
    | some p =>
      dsimp only
      by_cases hop : p.is_open = true
      · rw [if_pos hop, if_pos hop]
        have hnd_a : (a.portfolio.positions.map Position.pid).Nodup := by
          rw [h.2.2.1]
          exact hwf.1
        have heq := legacy_exit_phase_equiv a pid tier p pp np hnd_a
        cases hres : exit_eval tier p.soft_stop_triggered_at pp.price np
            pp.timestamp with
        | exited reason price =>
          rw [hres] at heq
          dsimp only
          rw [heq.2, if_pos rfl]
          exact ⟨eqobs_trans heq.1
              (close_eqobs h pid price pp.timestamp reason
                (reason == ExitReason.hard_stop)),
            rfl, rfl,
            close_poswf b pid price pp.timestamp reason
              (reason == ExitReason.hard_stop) hwf⟩
        | hold trig =>
          rw [hres] at heq
          dsimp only
          rw [heq.2, if_neg (by simp)]
          exact ⟨eqobs_trans heq.1 (set_trigger_eqobs h pid trig),
            rfl, rfl, set_trigger_poswf b pid trig hwf⟩
      · rw [if_neg hop, if_neg hop]
        exact ⟨h, rfl, rfl, hwf⟩

/-- One tick of the two engines: observationally equal states, equal
tracks, and preserved well-formedness. -/
theorem tick_equiv (market : Market) (res : ℚ) (a b : EngineState)
    (track : Option (ℕ × TierConfig)) (pp : PricePoint) (np : Option ℚ)
    (hwf : PosWF b) (h : EqObs a b) :
    EqObs (legacy_scan_tick market res a track pp np).1
      (scan_tick market res b track pp np).1 ∧
    (legacy_scan_tick market res a track pp np).2
      = (scan_tick market res b track pp np).2 ∧
    PosWF (scan_tick market res b track pp np).1 := by
  unfold legacy_scan_tick scan_tick
  dsimp only
  by_cases hh : res - pp.timestamp < 0
  · rw [if_pos hh, if_pos hh]
    exact ⟨h, rfl, hwf⟩
  · rw [if_neg hh, if_neg hh]
    obtain ⟨he1, he2, he3, hwf2⟩ := tick_exit_equiv a b track pp np hwf h
    rw [he3]
    by_cases hd : (scan_tick_exit b track pp np).2.2 = true
    · rw [if_pos hd, if_pos hd]
      rw [he2]
      obtain ⟨e1, e2, e3⟩ := entry_equiv market (res - pp.timestamp) _ _
        (scan_tick_exit b track pp np).2.1 pp he1 hwf2
      exact ⟨e1, e2, e3⟩
    · rw [if_neg hd, if_neg hd]
      exact ⟨he1, by rw [he2], hwf2⟩

/-- The two scan loops stay observationally in lockstep. -/
theorem loop_equiv (market : Market) (res : ℚ) :
    ∀ (l : List PricePoint) (a b : EngineState)
      (track : Option (ℕ × TierConfig)), PosWF b → EqObs a b →
      EqObs (legacy_scan_loop market res a track l).1
        (scan_loop market res b track l).1 ∧
      (legacy_scan_loop market res a track l).2
        = (scan_loop market res b track l).2 ∧
      PosWF (scan_loop market res b track l).1 := by
  intro l
  induction l with
  | nil => intro a b track hwf h; exact ⟨h, rfl, hwf⟩
  | cons pp rest ih =>
    intro a b track hwf h
    cases rest with
    | nil =>
      simp only [legacy_scan_loop, scan_loop]
      obtain ⟨t1, t2, t3⟩ := tick_equiv market res a b track pp none hwf h
      exact ⟨t1, t2, t3⟩
    | cons q tail =>
      simp only [legacy_scan_loop, scan_loop]
      obtain ⟨t1, t2, t3⟩ := tick_equiv market res a b track pp
        (some q.price) hwf h
      rw [t2]
      exact ih _ _ _ t3 t1

/-- Claim C10: the standalone engine (`src/backtest_engine.py`) and the
refactored engine (`src/src/backtest/engine.py`) are observationally
equivalent — for every market and price series, from equal
well-formed initial portfolios they produce the same closed-trade
sequence (entry price/time, exit price/time, reason, fees, via
`tradeObs`) and the same final cash balance. -/
theorem C10_engines_equivalent (st : EngineState) (market : Market)
    (prices : List PricePoint) (hwf : PosWF st) :
    (legacy_scan_market st market prices).all_trades.map tradeObs
      = (scan_market st market prices).all_trades.map tradeObs ∧
    (legacy_scan_market st market prices
        ).portfolio.closed_positions.map tradeObs
      = (scan_market st market prices
          ).portfolio.closed_positions.map tradeObs ∧
    (legacy_scan_market st market prices).portfolio.cash
      = (scan_market st market prices).portfolio.cash := by
  unfold legacy_scan_market scan_market
  cases market.resolved_at with
  | none => exact ⟨rfl, rfl, rfl⟩
  | some res =>
    dsimp only
    by_cases hemp : prices.isEmpty = true
    · rw [if_pos hemp, if_pos hemp]
      exact ⟨rfl, rfl, rfl⟩
    · rw [if_neg hemp, if_neg hemp]
      obtain ⟨l1, l2, l3⟩ := loop_equiv market res prices st st none hwf
        (eqobs_refl st)
      rw [l2]
      cases htr : (scan_loop market res st none prices).2 with
      | none => exact ⟨l1.2.2.2.2.1, l1.2.2.2.1, l1.2.1⟩
      | some pt =>
        rcases pt with ⟨pid, tier⟩
        dsimp only
        rw [getPos_eqobs l1 pid]
        cases hgp : engine_getPos (scan_loop market res st none prices).1
            pid with
        | none => exact ⟨l1.2.2.2.2.1, l1.2.2.2.1, l1.2.1⟩
        | some p =>
          dsimp only
          by_cases hop : p.is_open = true
          · rw [if_pos hop, if_pos hop]
            have hset := settle_eqobs l1 pid market
            exact ⟨hset.2.2.2.2.1, hset.2.2.2.1, hset.2.1⟩
          · rw [if_neg hop, if_neg hop]
            exact ⟨l1.2.2.2.2.1, l1.2.2.2.1, l1.2.1⟩

/-- Witness for C10 at the end-to-end scenario: both engines produce
the same observables from a fresh $10,000 portfolio. -/
theorem C10_witness :
    PosWF (mkEngine 10000) ∧
    ((legacy_scan_market (mkEngine 10000) c9_market c9_prices
        ).all_trades.map tradeObs
      = (scan_market (mkEngine 10000) c9_market c9_prices
          ).all_trades.map tradeObs ∧
    (legacy_scan_market (mkEngine 10000) c9_market c9_prices
        ).portfolio.closed_positions.map tradeObs
      = (scan_market (mkEngine 10000) c9_market c9_prices
          ).portfolio.closed_positions.map tradeObs ∧
    (legacy_scan_market (mkEngine 10000) c9_market c9_prices
        ).portfolio.cash
      = (scan_market (mkEngine 10000) c9_market c9_prices
          ).portfolio.cash) :=
 by
  have hwf : PosWF (mkEngine 10000) :=
    ⟨List.nodup_nil, fun p hp => absurd hp (List.not_mem_nil p)⟩
  exact ⟨hwf,
    C10_engines_equivalent (mkEngine 10000) c9_market c9_prices hwf⟩
